import Mathlib

/-
Verification of the jalgaon-cyclists-club activity-sync pipeline.

The repository is a collection of Python scripts that pull activity data
from a fitness-tracking REST API.  The definitions below are a shallow
embedding of the relevant pieces of the code: the batch/checkpoint resume
mechanism, the checkpoint file writes, the client-side rate limiter,
the since-cursor update, the paginators, the merge/dedupe paths, the
retrying GET wrapper and the webhook event handler.  Timestamps are
modelled as integers (epoch seconds), distances as rationals, serialized
JSON as opaque strings.
-/

namespace Batch

/-- Advance of the persisted batch index at the end of a run
(timepass.py lines 397-401, build_cyclists_db.py lines 363-368):
increment, and wrap to 0 once the next slice would start at or beyond
the end of the roster: `next = b + 1; if next * B >= total: next = 0`. -/
def nextBatchIndex (total B b : ℕ) : ℕ :=
  if total ≤ (b + 1) * B then 0 else b + 1

/-- The slice of the roster processed by the run with batch index `b`
(timepass.py lines 294-297: `athletes[b*BATCH_SIZE : b*BATCH_SIZE + BATCH_SIZE]`;
build_cyclists_db.py lines 296-299 clamps the end, which is the same list). -/
def batchSlice (roster : List α) (B b : ℕ) : List α :=
  (roster.drop (b * B)).take B

/-- Persisted batch index after `k` completed runs, starting from index 0. -/
def idxAfter (total B : ℕ) : ℕ → ℕ
  | 0 => 0
  | k + 1 => nextBatchIndex total B (idxAfter total B k)

end Batch

namespace Ckpt

/-- A file system: map from path to file contents (none when the file is absent). -/
def Fs : Type := String → Option String

/-- The file operations the checkpoint savers perform. -/
inductive FileOp where
  | write (path content : String)
  | rename (src dst : String)

/-- Effect of one completed file operation.  A write replaces the whole
content of `path`; a rename moves `src` over `dst` (os.replace). -/
def applyOp (fs : Fs) : FileOp → Fs
  | .write p c => fun q => if q = p then some c else fs q
  | .rename src dst => fun q =>
      if q = dst then fs src else if q = src then none else fs q

/-- Effect of an interrupted file operation.  Opening a file for writing
truncates it, so a write interrupted after `keep` characters leaves that
prefix of the new content; a rename (os.replace) is atomic, so an
interrupted rename leaves the file system unchanged. -/
def applyOpPartly (fs : Fs) (keep : ℕ) : FileOp → Fs
  | .write p c => fun q => if q = p then some (c.take keep) else fs q
  | .rename _ _ => fs

/-- State of the file system when the process is killed after `k` fully
completed operations of `ops`, with the next operation (if any)
interrupted after `keep` characters. -/
def crashFs (fs : Fs) : List FileOp → ℕ → ℕ → Fs
  | [], _, _ => fs
  | op :: _, 0, keep => applyOpPartly fs keep op
  | op :: ops, k + 1, keep => crashFs (applyOp fs op) ops k keep

/-- timepass.py save_checkpoint (lines 60-62): opens the checkpoint path
itself for writing and dumps the JSON into it directly; no temporary
path, no rename.  `content` stands for the serialized JSON text. -/
def save_checkpoint_timepass (ckptFile content : String) : List FileOp :=
  [.write ckptFile content]

/-- build_cyclists_db.py save_checkpoint (lines 60-65): dump the JSON to
the sibling path `CHECKPOINT_FILE + ".tmp"`, then os.replace it over the
real path. -/
def save_checkpoint_buildDb (ckptFile content : String) : List FileOp :=
  [.write (ckptFile ++ ".tmp") content, .rename (ckptFile ++ ".tmp") ckptFile]

end Ckpt

namespace SafeGet

/-- Outcome of one HTTP attempt inside safe_get: a requests exception or
a response carrying a status code. -/
inductive Outcome where
  | exc
  | resp (status : ℕ)
deriving DecidableEq

/-- Retry condition of timepass.py safe_get (lines 143-171): a 429
response or any status at or above 500 is retried (after a sleep). -/
def retryTP (s : ℕ) : Bool := s == 429 || decide (500 ≤ s)

/-- Retry condition of build_cyclists_db.py safe_get (lines 232-272): a
429 response or a 5xx status (500 <= status < 600) is retried. -/
def retryBC (s : ℕ) : Bool := s == 429 || (decide (500 ≤ s) && decide (s < 600))

/-- Whether the attempt outcome `o` makes the safe_get loop retry. -/
def retried (retry : ℕ → Bool) : Outcome → Prop
  | .exc => True
  | .resp s => retry s = true

/-- The retry loop of safe_get (`while attempt <= retries`), shared by
timepass.py and build_cyclists_db.py up to the retry condition.
`outs i` is the outcome of the i-th HTTP attempt, `total` is
retries + 1, and `b` is the remaining budget total - attempt.  Returns
the status of the returned response (none = the RuntimeError raised once
the budget is exhausted) together with the number of HTTP attempts
performed. -/
def loop (retry : ℕ → Bool) (outs : ℕ → Outcome) (total : ℕ) : ℕ → Option ℕ × ℕ
  | 0 => (none, total)
  | b + 1 =>
    match outs (total - (b + 1)) with
    | .exc => loop retry outs total b
    | .resp s => if retry s then loop retry outs total b else (some s, total - b)

/-- safe_get: attempt counter starts at 0 and the loop runs while
attempt <= retries, so the budget is retries + 1 attempts. -/
def safe_get (retry : ℕ → Bool) (outs : ℕ → Outcome) (retries : ℕ) : Option ℕ × ℕ :=
  loop retry outs (retries + 1) (retries + 1)

/-- Concrete attempt stream used by the witness: every attempt yields a
plain 404 response. -/
def outsW : ℕ → Outcome := fun _ => .resp 404

end SafeGet

namespace Cursor

/-- The accumulation step for the newest-activity timestamp in
timepass.py extract_athlete_data (lines 347-356): a parsed start_date
epoch timestamp replaces the accumulator when strictly greater; an
activity whose start_date failed to parse (none) is skipped. -/
def bumpNewest (acc : ℤ) : Option ℤ → ℤ
  | some ts => if acc < ts then ts else acc
  | none => acc

/-- newest_ts after scanning all fetched activities, seeded with the
stored cursor or 0 when absent (`newest_ts = last_ts or 0`; a stored
cursor of 0 is falsy in Python and also seeds 0). -/
def newestTs (last_ts : Option ℤ) (fetched : List (Option ℤ)) : ℤ :=
  fetched.foldl bumpNewest (last_ts.getD 0)

/-- The per-subject cursor written to the checkpoint by timepass.py
extract_athlete_data: with no fetched activities the cursor is set to
the current wall-clock time `now` (line 342); otherwise it is set to
newestTs when that value is nonzero (Python truthiness, lines 391-392)
and left unchanged when newestTs is zero.  The ISO8601 text stored in
the checkpoint round-trips whole epoch seconds, so the cursor is
modelled directly as the epoch value. -/
def updateCursor (now : ℤ) (last_ts : Option ℤ) (fetched : List (Option ℤ)) : Option ℤ :=
  if fetched.isEmpty then some now
  else if newestTs last_ts fetched ≠ 0 then some (newestTs last_ts fetched) else last_ts

end Cursor

namespace Paginate

/-- The pagination loop of timepass.py fetch_activities_for_athlete
(lines 176-207).  `pages p` is the response for page number `p`: an HTTP
status (as returned by safe_get) and the decoded batch.  The loop body:
a non-200 response breaks without appending; an empty batch breaks; the
batch is appended; a batch shorter than per_page breaks; otherwise the
page number is incremented.  `fuel` bounds the iterations so the
function is total; none means the fuel ran out before the loop stopped.
Returns the accumulated activities together with the list of page
numbers requested. -/
def fetchTP (pages : ℕ → ℕ × List α) (perPage : ℕ) :
    ℕ → ℕ → List α → List ℕ → Option (List α × List ℕ)
  | 0, _, _, _ => none
  | fuel + 1, page, acc, reqs =>
    if (pages page).1 ≠ 200 then some (acc, reqs ++ [page])
    else if (pages page).2.isEmpty then some (acc, reqs ++ [page])
    else if (pages page).2.length < perPage then
      some (acc ++ (pages page).2, reqs ++ [page])
    else fetchTP pages perPage fuel (page + 1) (acc ++ (pages page).2) (reqs ++ [page])

/-- fetch_activities_for_athlete starts at page 1 with no accumulated
activities. -/
def fetch_activities_for_athlete (pages : ℕ → ℕ × List α) (perPage fuel : ℕ) :
    Option (List α × List ℕ) :=
  fetchTP pages perPage fuel 1 [] []

/-- The pagination loop of build_leaderboard.py fetch_activities
(lines 56-80) and build_leaderboard_local.py fetch_activities
(lines 81-106): the same loop but with no short-page check — only a
non-200 response or an empty batch stops; after a short-but-nonempty
batch the next page is still requested. -/
def fetchLB (pages : ℕ → ℕ × List α) :
    ℕ → ℕ → List α → List ℕ → Option (List α × List ℕ)
  | 0, _, _, _ => none
  | fuel + 1, page, acc, reqs =>
    if (pages page).1 ≠ 200 then some (acc, reqs ++ [page])
    else if (pages page).2.isEmpty then some (acc, reqs ++ [page])
    else fetchLB pages fuel (page + 1) (acc ++ (pages page).2) (reqs ++ [page])

/-- fetch_activities starts at page 1 with no accumulated activities. -/
def fetch_activities (pages : ℕ → ℕ × List α) (fuel : ℕ) : Option (List α × List ℕ) :=
  fetchLB pages fuel 1 [] []

/-- A response that stops both loop variants: non-200 status, empty
batch, or (for the timepass variant) a batch shorter than per_page. -/
def stopsTP (perPage : ℕ) (resp : ℕ × List α) : Prop :=
  resp.1 ≠ 200 ∨ resp.2 = [] ∨ resp.2.length < perPage

/-- A response that stops the leaderboard loop variant: non-200 status
or an empty batch. -/
def stopsLB (resp : ℕ × List α) : Prop :=
  resp.1 ≠ 200 ∨ resp.2 = []

/-- Concrete page table for the counterexample: page 1 returns 200 with
a single record although per_page is 100; every later page is empty. -/
def pagesW : ℕ → ℕ × List ℕ := fun p => if p = 1 then (200, [7]) else (200, [])

end Paginate

namespace Merge

/-- The scan behind pandas drop_duplicates with keep="first": walk the
rows keeping each row whose id has not been seen yet. -/
def dropDupFirstAux {V : Type} (seen : List ℤ) : List (ℤ × V) → List (ℤ × V)
  | [] => []
  | r :: rs =>
    if seen.contains r.1 then dropDupFirstAux seen rs
    else r :: dropDupFirstAux (r.1 :: seen) rs

/-- pandas drop_duplicates(subset=["Activity_ID"]) with the default
keep="first", as used by the JSON and Excel merges of timepass.py
extract_athlete_data (lines 424-450): for each id, the first row is
kept and later rows with the same id are dropped.  A record is a pair
of its Activity_ID and its remaining content. -/
def dropDupFirst {V : Type} (l : List (ℤ × V)) : List (ℤ × V) :=
  dropDupFirstAux [] l

/-- pandas drop_duplicates(subset=["Activity_ID"], keep="last"), as used
by process_missing_athletes.py fetch_and_sync_single_athlete
(lines 243-264) and by the CSV merge of webhook_server.py (line 227):
for each id the last row is kept, the kept rows staying in their
original order. -/
def dropDupLast {V : Type} (l : List (ℤ × V)) : List (ℤ × V) :=
  (dropDupFirst l.reverse).reverse

/-- The JSON/Excel merge of timepass.py extract_athlete_data: concat the
previously persisted records with the freshly fetched batch, then drop
duplicate Activity_IDs keeping the first occurrence. -/
def mergeTimepass {V : Type} (prev fresh : List (ℤ × V)) : List (ℤ × V) :=
  dropDupFirst (prev ++ fresh)

/-- The JSON/CSV merge of process_missing_athletes.py: concat and drop
duplicate Activity_IDs keeping the last occurrence. -/
def mergeProcessMissing {V : Type} (prev fresh : List (ℤ × V)) : List (ℤ × V) :=
  dropDupLast (prev ++ fresh)

/-- SQLite INSERT OR REPLACE on the activity_id primary key for one row:
replace the existing row with that id in place, or append. -/
def sqlReplace {V : Type} (tbl : List (ℤ × V)) (r : ℤ × V) : List (ℤ × V) :=
  if tbl.any (fun x => decide (x.1 = r.1)) then
    tbl.map (fun x => if x.1 = r.1 then r else x)
  else tbl ++ [r]

/-- fetch_strava_activities.py append_to_db (lines 203-235): executemany
of INSERT OR REPLACE over the fetched rows. -/
def append_to_db {V : Type} (tbl : List (ℤ × V)) (rows : List (ℤ × V)) : List (ℤ × V) :=
  rows.foldl sqlReplace tbl

/-- The record with the given id (first match). -/
def lookupId {V : Type} (l : List (ℤ × V)) (i : ℤ) : Option V :=
  (l.find? (fun x => decide (x.1 = i))).map Prod.snd

/-- The ids of the stored records. -/
def keysOf {V : Type} (l : List (ℤ × V)) : List ℤ :=
  l.map Prod.fst

end Merge

namespace Distance

/-- Rounding to 2 decimal places: the model of Python round(x, 2) and
pandas Series.round(2).  Python rounds half-way cases to even, this
model rounds them up; no statement below sits on a half-way case, and
all that is used is that the result is a whole number of hundredths. -/
def round2 (q : ℚ) : ℚ := (Int.floor (q * 100 + 1 / 2) : ℚ) / 100

/-- timepass.py row construction (lines 363-364), identical in
process_missing_athletes.py (lines 216-217): Distance_km is
distance/1000 when distance is truthy, else 0.0; the frame column is
rounded to 2 decimals right after the frame is built (timepass.py line
388, process_missing_athletes.py line 241), i.e. at ingestion. -/
def distanceKmTimepass (distance : Option ℚ) : ℚ :=
  round2 (match distance with
    | some d => if d ≠ 0 then d / 1000 else 0
    | none => 0)

/-- webhook_server.py _activity_to_record (lines 137-143): Distance_km is
round(distance / 1000.0, 2) when distance is present, else None. -/
def distanceKmWebhook (distance : Option ℚ) : Option ℚ :=
  distance.map (fun d => round2 (d / 1000))

/-- fetch_strava_activities.py flatten_activity (line 303): distance_km
is (distance or 0) / 1000.0 — stored and exported with no rounding. -/
def distanceKmFetch (distance : Option ℚ) : ℚ :=
  (match distance with
    | some d => if d ≠ 0 then d else 0
    | none => 0) / 1000

end Distance

namespace Rotation

/-- A checkpoint athlete entry of build_cyclists_db.py: the JSON object
under cp["athletes"][athlete_key], restricted to the fields the
rotation logic touches. -/
structure Entry where
  refresh_token : Option String
  last_seen : Option String
deriving DecidableEq

/-- cp["athletes"] as an association list keyed by athlete_key. -/
abbrev CP := List (String × Entry)

/-- cp.get("athletes", \x7b\x7d).get(athlete_key, \x7b\x7d): a missing
key acts as an empty entry. -/
def getEntry (cp : CP) (key : String) : Entry :=
  match (cp.find? (fun x => decide (x.1 = key))).map Prod.snd with
  | some e => e
  | none => ⟨none, none⟩

/-- Python `a or b` on optional strings: `a` unless it is falsy
(missing or empty). -/
def orTruthy (a b : Option String) : Option String :=
  match a with
  | some s => if s = "" then b else some s
  | none => b

/-- Python truthiness of an optional string. -/
def truthy : Option String → Bool
  | some s => decide (s ≠ "")
  | none => false

/-- Credential resolution of build_cyclists_db.py line 312 (identical in
timepass.py line 309): the checkpoint-stored refresh token is preferred
over the roster token:
`stored.get("refresh_token") or athlete.get("refresh_token")`. -/
def resolveRefresh (cp : CP) (key : String) (sheetTok : Option String) : Option String :=
  orTruthy (getEntry cp key).refresh_token sheetTok

/-- Update-or-create of a checkpoint entry, the effect of
`cp.setdefault("athletes", \x7b\x7d).setdefault(key, \x7b\x7d)[field] = v`:
apply `g` to the entry under `key`, or append `dflt` when absent. -/
def updEntry (g : Entry → Entry) (dflt : Entry) (cp : CP) (key : String) : CP :=
  if cp.any (fun x => decide (x.1 = key)) then
    cp.map (fun x => if x.1 = key then (x.1, g x.2) else x)
  else cp ++ [(key, dflt)]

/-- Store a rotated refresh token under the athlete key. -/
def setTok (cp : CP) (key : String) (tok : String) : CP :=
  updEntry (fun e => { e with refresh_token := some tok }) ⟨some tok, none⟩ cp key

/-- Record the last_seen timestamp under the athlete key. -/
def setSeen (cp : CP) (key : String) (now : String) : CP :=
  updEntry (fun e => { e with last_seen := some now }) ⟨none, some now⟩ cp key

/-- The token-exchange response fields the caller reads. -/
structure TokenResp where
  access_token : Option String
  refresh_token : Option String
deriving DecidableEq

/-- Checkpoint effect of one athlete iteration of build_cyclists_db.py
build_profiles_db (lines 306-358): resolve the refresh token preferring
the checkpoint; when it is falsy, when the exchange fails (`exch` none)
or when the profile fetch fails (`profileOk` false), only last_seen is
recorded; when the exchange returns a rotated refresh token it is
written to the checkpoint entry (lines 329-331, and again at 355-356 on
the success path).  Every branch ends in save_checkpoint, and the
returned value is the checkpoint as persisted; load_checkpoint returns
it verbatim after a process restart. -/
def processAthlete (cp : CP) (key : String) (sheetTok : Option String)
    (exch : Option TokenResp) (profileOk : Bool) (now : String) : CP :=
  if truthy (resolveRefresh cp key sheetTok) = false then setSeen cp key now
  else
    match exch with
    | none => setSeen cp key now
    | some tr =>
      let cp1 := if truthy tr.refresh_token then
          setTok cp key (tr.refresh_token.getD "") else cp
      if profileOk = false then setSeen cp1 key now
      else
        let cp2 := setSeen cp1 key now
        if truthy tr.refresh_token then setTok cp2 key (tr.refresh_token.getD "") else cp2

end Rotation

namespace Webhook

/-- A checkpoint athlete entry in webhook_strava_checkpoint.json,
restricted to the field handle_event reads. -/
structure WEntry where
  refresh_token : Option String
deriving DecidableEq

/-- The webhook checkpoint athletes map, keyed by the decimal athlete
id string. -/
abbrev WCp := List (String × WEntry)

/-- cp.get("athletes", \x7b\x7d).get(athlete_id): none when absent. -/
def lookupW (cp : WCp) (key : String) : Option WEntry :=
  (cp.find? (fun x => decide (x.1 = key))).map Prod.snd

/-- One incoming webhook event: the fields handle_event reads. -/
structure Event where
  object_type : Option String
  aspect_type : Option String
  owner_id : Option Int
  owner : Option Int
  object_id : Option Int
deriving DecidableEq

/-- Python truthiness of an optional integer (missing and 0 are falsy). -/
def truthyI : Option Int → Bool
  | some v => decide (v ≠ 0)
  | none => false

/-- `str(event.get("owner_id") or event.get("owner") or event.get("owner_id"))`
(webhook_server.py line 260): the first truthy of owner_id and owner,
falling back to owner_id itself, rendered as Python str() renders it
(str(None) = "None"). -/
def athleteIdStr (e : Event) : String :=
  match (if truthyI e.owner_id then e.owner_id
         else if truthyI e.owner then e.owner else e.owner_id) with
  | some v => toString v
  | none => "None"

/-- The token-exchange response fields handle_event reads. -/
structure WTokenResp where
  access_token : Option String
  refresh_token : Option String
deriving DecidableEq

/-- Store a rotated refresh token under the athlete id
(`cp.setdefault("athletes", \x7b\x7d).setdefault(athlete_id, \x7b\x7d)["refresh_token"] = new_refresh`). -/
def setTokW (cp : WCp) (key : String) (tok : String) : WCp :=
  if cp.any (fun x => decide (x.1 = key)) then
    cp.map (fun x => if x.1 = key then (x.1, ⟨some tok⟩) else x)
  else cp ++ [(key, ⟨some tok⟩)]

/-- append_activity_to_json (webhook_server.py lines 183-209): replace
the first record with the same Activity_ID in place, else append. -/
def append_activity_to_json {ρ : Type} : List (ℤ × ρ) → (ℤ × ρ) → List (ℤ × ρ)
  | [], rec => [rec]
  | r :: rs, rec => if r.1 = rec.1 then rec :: rs else r :: append_activity_to_json rs rec

/-- append_activity_to_csv (webhook_server.py lines 211-236): concat the
new row and drop duplicate Activity_IDs keeping the last occurrence. -/
def append_activity_to_csv {ρ : Type} (data : List (ℤ × ρ)) (rec : ℤ × ρ) : List (ℤ × ρ) :=
  Merge.dropDupLast (data ++ [rec])

/-- The observable outcome of handle_event: how many token exchanges
were performed, and the resulting checkpoint, JSON file and CSV file. -/
structure HResult (ρ : Type) where
  exchanges : ℕ
  cp : WCp
  jsonFile : List (ℤ × ρ)
  csvFile : List (ℤ × ρ)
deriving DecidableEq

/-- handle_event (webhook_server.py lines 241-303).  Guards in source
order: a non-activity object_type returns; an aspect_type other than
create/update returns; a falsy athlete_id string or object_id returns;
a missing or token-less checkpoint entry returns.  Past the guards, the
token exchange runs (counted in `exchanges`); a rotated refresh token is
saved to the checkpoint; the activity detail fetch (`fetched`, none on
exception or non-200) aborts without touching the files; on success the
record derived from the activity is merged into the JSON and CSV files. -/
def handle_event {ρ : Type} (e : Event) (cp : WCp) (json csv : List (ℤ × ρ))
    (exch : Option WTokenResp) (fetched : Option (ℤ × ρ)) : HResult ρ :=
  if e.object_type ≠ some "activity" then ⟨0, cp, json, csv⟩
  else if ¬ (e.aspect_type = some "create" ∨ e.aspect_type = some "update") then
    ⟨0, cp, json, csv⟩
  else if athleteIdStr e = "" ∨ truthyI e.object_id = false then ⟨0, cp, json, csv⟩
  else
    match lookupW cp (athleteIdStr e) with
    | none => ⟨0, cp, json, csv⟩
    | some entry =>
      match entry.refresh_token with
      | none => ⟨0, cp, json, csv⟩
      | some rt =>
        if rt = "" then ⟨0, cp, json, csv⟩
        else
          match exch with
          | none => ⟨1, cp, json, csv⟩
          | some tr =>
            let cp1 := match tr.refresh_token with
              | some nr => if nr ≠ "" then setTokW cp (athleteIdStr e) nr else cp
              | none => cp
            match fetched with
            | none => ⟨1, cp1, json, csv⟩
            | some rec =>
              ⟨1, cp1, append_activity_to_json json rec, append_activity_to_csv csv rec⟩

/-- Concrete event used by the witness: an athlete-update event, which
handle_event must ignore. -/
def eventW : Event := ⟨some "athlete", some "create", some 7, none, some 5⟩

end Webhook

namespace RateLimit

/-- The client-side limits of build_cyclists_db.py lines 42-46:
100 requests per 15 minutes and 300 requests per hour. -/
def REQ_LIMIT_15MIN : ℕ := 100

def REQ_WINDOW_15MIN : ℤ := 15 * 60

def REQ_LIMIT_1H : ℕ := 300

def REQ_WINDOW_1H : ℤ := 60 * 60

/-- The RateLimiter state (build_cyclists_db.py lines 186-195): two
deques of request timestamps, oldest first.  Time is modelled in whole
seconds. -/
structure RateLimiter where
  req_deque_15 : List ℤ
  req_deque_1h : List ℤ
deriving DecidableEq

/-- One deque pruned at time `now` for a window of length `w`:
`while dq and dq[0] < now - w: dq.popleft()` (lines 198-203). -/
def pruneD (w now : ℤ) (dq : List ℤ) : List ℤ :=
  dq.dropWhile (fun t => decide (t < now - w))

/-- RateLimiter._prune at time `now`. -/
def prune (now : ℤ) (rl : RateLimiter) : RateLimiter :=
  ⟨pruneD REQ_WINDOW_15MIN now rl.req_deque_15,
   pruneD REQ_WINDOW_1H now rl.req_deque_1h⟩

/-- RateLimiter.note_request at time `now` (lines 192-195): append `now`
to both deques, then prune. -/
def note_request (now : ℤ) (rl : RateLimiter) : RateLimiter :=
  prune now ⟨rl.req_deque_15 ++ [now], rl.req_deque_1h ++ [now]⟩

/-- The deadline computed by RateLimiter.wait_if_needed (lines 205-227)
on the pruned state: for each window at or above its ceiling,
earliest + window_length + safety_buffer; the latest such deadline
across the at-capacity windows, or none when no window is at capacity. -/
def waitUntil (buf : ℤ) (rl : RateLimiter) : Option ℤ :=
  let w15 : Option ℤ :=
    if REQ_LIMIT_15MIN ≤ rl.req_deque_15.length then
      some (rl.req_deque_15.headD 0 + REQ_WINDOW_15MIN + buf)
    else none
  if REQ_LIMIT_1H ≤ rl.req_deque_1h.length then
    match w15 with
    | none => some (rl.req_deque_1h.headD 0 + REQ_WINDOW_1H + buf)
    | some c => some (max c (rl.req_deque_1h.headD 0 + REQ_WINDOW_1H + buf))
  else w15

/-- wait_if_needed called at time `now`: prune, compute the deadline and
sleep until it (`if wait_until and wait_until > now: sleep(...)`; a
deadline of exactly 0 is falsy in Python and skips the sleep).  Returns
the time at which the caller proceeds to send, and the pruned state. -/
def wait_if_needed (buf now : ℤ) (rl : RateLimiter) : ℤ × RateLimiter :=
  let rl1 := prune now rl
  match waitUntil buf rl1 with
  | none => (now, rl1)
  | some wu => if wu ≠ 0 ∧ now < wu then (wu, rl1) else (now, rl1)

/-- One guarded request as performed by safe_get (build_cyclists_db.py
lines 236-249): wait_if_needed before the HTTP call and note_request
right after the response arrives; `td.1` is the clock when the attempt
starts and `td.2 ≥ 0` the elapsed request time. -/
def sendStep (buf : ℤ) (rl : RateLimiter) (td : ℤ × ℤ) : RateLimiter :=
  note_request ((wait_if_needed buf td.1 rl).1 + td.2) (wait_if_needed buf td.1 rl).2

/-- The limiter state after a sequence of guarded requests. -/
def runSteps (buf : ℤ) (rl : RateLimiter) (steps : List (ℤ × ℤ)) : RateLimiter :=
  steps.foldl (sendStep buf) rl

/-- The number of timestamps in a deque strictly younger than `w` at
time `now`. -/
def young (w now : ℤ) (dq : List ℤ) : ℕ :=
  (dq.filter (fun t => decide (now - w < t))).length

/-- The length and nonnegativity invariant of the limiter state. -/
def Inv (rl : RateLimiter) : Prop :=
  rl.req_deque_15.length ≤ REQ_LIMIT_15MIN ∧
  rl.req_deque_1h.length ≤ REQ_LIMIT_1H ∧
  (∀ x ∈ rl.req_deque_15, 0 ≤ x) ∧
  (∀ x ∈ rl.req_deque_1h, 0 ≤ x)

end RateLimit

namespace Batch

theorem length_le_ceil_mul {R B : ℕ} (hB : 0 < B) : R ≤ (R + B - 1) / B * B := by
  have hd := Nat.div_add_mod (R + B - 1) B
  have hm : (R + B - 1) % B < B := Nat.mod_lt _ hB
  have : B * ((R + B - 1) / B) = (R + B - 1) / B * B := Nat.mul_comm _ _
  omega

theorem mul_lt_of_lt_ceil {m R B : ℕ} (hB : 0 < B) (h : m < (R + B - 1) / B) :
    m * B < R := by
  have h1 : m + 1 ≤ (R + B - 1) / B := h
  have h2 : (m + 1) * B ≤ R + B - 1 := (Nat.le_div_iff_mul_le hB).mp h1
  have h3 : (m + 1) * B = m * B + B := Nat.succ_mul m B
  omega

theorem idxAfter_eq_self {R B : ℕ} (hB : 0 < B) :
    ∀ k, k < (R + B - 1) / B → idxAfter R B k = k := by
  intro k
  induction k with
  | zero => intro _; rfl
  | succ k ih =>
    intro hk
    have hk1 : k < (R + B - 1) / B := Nat.lt_of_succ_lt hk
    have hlt : (k + 1) * B < R := mul_lt_of_lt_ceil hB hk
    simp only [idxAfter, ih hk1, nextBatchIndex]
    rw [if_neg (by omega)]

theorem idxAfter_wraps {R B : ℕ} (hB : 0 < B) :
    idxAfter R B ((R + B - 1) / B) = 0 := by
  rcases Nat.eq_zero_or_pos ((R + B - 1) / B) with h0 | hpos
  · rw [h0]; rfl
  · obtain ⟨n, hn⟩ : ∃ n, (R + B - 1) / B = n + 1 := ⟨_, (Nat.succ_pred_eq_of_pos hpos).symm⟩
    rw [hn]
    have hidx : idxAfter R B n = n := idxAfter_eq_self hB n (by omega)
    have hceil : R ≤ (R + B - 1) / B * B := length_le_ceil_mul hB
    simp only [idxAfter, hidx, nextBatchIndex]
    rw [if_pos (by rw [hn] at hceil; omega)]

theorem join_slices {α : Type} (B : ℕ) (hB : 0 < B) :
    ∀ (n : ℕ) (l : List α), l.length ≤ n * B →
      ((List.range n).map (fun k => batchSlice l B k)).flatten = l := by
  intro n
  induction n with
  | zero =>
    intro l hl
    rw [Nat.zero_mul] at hl
    have hl0 : l = [] := by
      cases l with
      | nil => rfl
      | cons a t => simp at hl
    simp [hl0]
  | succ n ih =>
    intro l hl
    rw [List.range_succ_eq_map, List.map_cons, List.flatten_cons, List.map_map]
    have h0 : batchSlice l B 0 = l.take B := by
      simp [batchSlice]
    have hmaps : (List.range n).map ((fun k => batchSlice l B k) ∘ Nat.succ) =
        (List.range n).map (fun k => batchSlice (l.drop B) B k) := by
      apply List.map_congr_left
      intro k _
      show batchSlice l B (k + 1) = batchSlice (l.drop B) B k
      unfold batchSlice
      rw [List.drop_drop, Nat.succ_mul, Nat.add_comm (k * B) B]
    have hlen : (l.drop B).length ≤ n * B := by
      have hs : (n + 1) * B = n * B + B := Nat.succ_mul n B
      simp only [List.length_drop]
      omega
    rw [hmaps, ih (l.drop B) hlen, h0, List.take_append_drop]

end Batch

/-- Claim C6: given a roster of size R and batch size B, starting from
batch index 0, after ceil(R/B) = (R + B - 1) / B runs the persisted
batch index returns to 0, the index during run k is k, and the
concatenation of the slices processed during those runs is exactly the
full roster (each subject exactly once per wraparound cycle). -/
theorem thm_C6 {α : Type} (roster : List α) (B : ℕ) (hB : 0 < B) :
    Batch.idxAfter roster.length B ((roster.length + B - 1) / B) = 0 ∧
    (∀ k, k < (roster.length + B - 1) / B →
      Batch.idxAfter roster.length B k = k) ∧
    ((List.range ((roster.length + B - 1) / B)).map
      (fun k => Batch.batchSlice roster B (Batch.idxAfter roster.length B k))).flatten
      = roster := by
  refine ⟨Batch.idxAfter_wraps hB, Batch.idxAfter_eq_self hB, ?_⟩
  have hcong : ((List.range ((roster.length + B - 1) / B)).map
      (fun k => Batch.batchSlice roster B (Batch.idxAfter roster.length B k))) =
      ((List.range ((roster.length + B - 1) / B)).map
      (fun k => Batch.batchSlice roster B k)) := by
    apply List.map_congr_left
    intro k hk
    rw [Batch.idxAfter_eq_self hB k (List.mem_range.mp hk)]
  rw [hcong]
  exact Batch.join_slices B hB _ roster (Batch.length_le_ceil_mul hB)

/-- Witness for C6 at a concrete roster of 5 subjects and batch size 2. -/
theorem thm_C6_witness :
    Batch.idxAfter 5 2 3 = 0 ∧
    (∀ k, k < 3 → Batch.idxAfter 5 2 k = k) ∧
    ((List.range 3).map
      (fun k => Batch.batchSlice [10, 20, 30, 40, 50] 2 (Batch.idxAfter 5 2 k))).flatten
      = [10, 20, 30, 40, 50] := by
  have h := thm_C6 [10, 20, 30, 40, 50] 2 (by decide)
  simpa using h

/-- Claim C2, counterexample: timepass.py save_checkpoint writes the JSON
directly to the checkpoint path with no temporary file, so a process
killed mid-write leaves a partial file that is neither the pre-save nor
the post-save content. -/
theorem thm_C2_cex :
    ¬ (Ckpt.crashFs
        (fun q => if q = "strava_checkpoint.json" then some "OLDCKPT" else none)
        (Ckpt.save_checkpoint_timepass "strava_checkpoint.json" "NEWCKPT")
        0 3 "strava_checkpoint.json" = some "OLDCKPT" ∨
      Ckpt.crashFs
        (fun q => if q = "strava_checkpoint.json" then some "OLDCKPT" else none)
        (Ckpt.save_checkpoint_timepass "strava_checkpoint.json" "NEWCKPT")
        0 3 "strava_checkpoint.json" = some "NEWCKPT") := by
  decide

/-- Claim C2, amended: build_cyclists_db.py save_checkpoint (and the
webhook server checkpoint writer of the same shape) is atomic: it writes
the complete JSON to the sibling temporary path and renames it over the
real path, so a process killed at any point leaves the checkpoint path
holding either the pre-save or the post-save content.  timepass.py
save_checkpoint, by contrast, writes the checkpoint path directly and a
kill mid-write leaves a partial file (see the counterexample). -/
theorem thm_C2 (fs : Ckpt.Fs) (f content : String) (k keep : ℕ) :
    Ckpt.crashFs fs (Ckpt.save_checkpoint_buildDb f content) k keep f = fs f ∨
    Ckpt.crashFs fs (Ckpt.save_checkpoint_buildDb f content) k keep f = some content := by
  have hne : f ≠ f ++ ".tmp" := by
    intro h
    have h1 := congrArg String.length h
    rw [String.length_append] at h1
    have h2 : ".tmp".length = 4 := rfl
    omega
  match k with
  | 0 =>
    left
    simp only [Ckpt.save_checkpoint_buildDb, Ckpt.crashFs, Ckpt.applyOpPartly]
    rw [if_neg hne]
  | 1 =>
    left
    simp only [Ckpt.save_checkpoint_buildDb, Ckpt.crashFs, Ckpt.applyOpPartly,
      Ckpt.applyOp]
    rw [if_neg hne]
  | (n + 2) =>
    right
    simp [Ckpt.save_checkpoint_buildDb, Ckpt.crashFs, Ckpt.applyOp]

namespace SafeGet

theorem loop_spec (retry : ℕ → Bool) (outs : ℕ → Outcome) (total : ℕ) :
    ∀ b, b ≤ total →
      ((loop retry outs total b).2 ≤ total) ∧
      (∀ s, (loop retry outs total b).1 = some s →
        retry s = false ∧
        ∃ k, total - b ≤ k ∧ k < total ∧ outs k = .resp s ∧
          (∀ j, total - b ≤ j → j < k → retried retry (outs j)) ∧
          (loop retry outs total b).2 = k + 1) ∧
      ((loop retry outs total b).1 = none →
        ∀ j, total - b ≤ j → j < total → retried retry (outs j)) := by
  intro b
  induction b with
  | zero =>
    intro _
    refine ⟨le_refl _, ?_, ?_⟩
    · intro s hs; simp [loop] at hs
    · intro _ j hj hj2; omega
  | succ b ih =>
    intro hb
    have hb1 : b ≤ total := Nat.le_of_succ_le hb
    obtain ⟨ih1, ih2, ih3⟩ := ih hb1
    cases houts : outs (total - (b + 1)) with
    | exc =>
      have hl : loop retry outs total (b + 1) = loop retry outs total b := by
        simp [loop, houts]
      rw [hl]
      refine ⟨ih1, ?_, ?_⟩
      · intro s hs
        obtain ⟨hr, k, hk1, hk2, hk3, hk4, hk5⟩ := ih2 s hs
        refine ⟨hr, k, by omega, hk2, hk3, ?_, hk5⟩
        intro j hj1 hj2
        rcases Nat.eq_or_lt_of_le hj1 with he | hlt
        · subst he; rw [houts]; exact trivial
        · exact hk4 j (by omega) hj2
      · intro hn j hj1 hj2
        rcases Nat.eq_or_lt_of_le hj1 with he | hlt
        · subst he; rw [houts]; exact trivial
        · exact ih3 hn j (by omega) hj2
    | resp s0 =>
      by_cases hr0 : retry s0 = true
      · have hl : loop retry outs total (b + 1) = loop retry outs total b := by
          simp [loop, houts, hr0]
        rw [hl]
        refine ⟨ih1, ?_, ?_⟩
        · intro s hs
          obtain ⟨hr, k, hk1, hk2, hk3, hk4, hk5⟩ := ih2 s hs
          refine ⟨hr, k, by omega, hk2, hk3, ?_, hk5⟩
          intro j hj1 hj2
          rcases Nat.eq_or_lt_of_le hj1 with he | hlt
          · subst he; rw [houts]; exact hr0
          · exact hk4 j (by omega) hj2
        · intro hn j hj1 hj2
          rcases Nat.eq_or_lt_of_le hj1 with he | hlt
          · subst he; rw [houts]; exact hr0
          · exact ih3 hn j (by omega) hj2
      · have hr0f : retry s0 = false := by
          simpa using hr0
        have hl : loop retry outs total (b + 1) = (some s0, total - b) := by
          simp [loop, houts, hr0f]
        rw [hl]
        refine ⟨by omega, ?_, ?_⟩
        · intro s hs
          simp only [Option.some.injEq] at hs
          subst hs
          refine ⟨hr0f, total - (b + 1), le_refl _, by omega, houts, ?_, by omega⟩
          intro j hj1 hj2
          omega
        · intro hn
          simp at hn

end SafeGet

/-- Claim C9: for both safe_get variants (timepass.py lines 143-171 and
build_cyclists_db.py lines 232-272), the retrying GET wrapper performs
at most retries + 1 HTTP attempts; when it returns a response, its
status is neither 429 nor in the 5xx range, every earlier attempt was a
retried one (exception, 429 or 5xx) — so in particular a 4xx other than
429 is returned immediately — and the attempt count equals the position
of the returned response; it raises RuntimeError (modelled as none)
exactly when all retries + 1 attempts were retried ones.  Statuses in
the stream are assumed to be real HTTP statuses (at most 599), which
makes the timepass retry test (status >= 500) coincide with the 5xx
range. -/
theorem thm_C9 (outs : ℕ → SafeGet.Outcome) (retries : ℕ)
    (hs : ∀ i s, outs i = SafeGet.Outcome.resp s → s ≤ 599) :
    ∀ retry ∈ [SafeGet.retryTP, SafeGet.retryBC],
      (SafeGet.safe_get retry outs retries).2 ≤ retries + 1 ∧
      (∀ s, (SafeGet.safe_get retry outs retries).1 = some s →
        (¬ (s = 429 ∨ (500 ≤ s ∧ s ≤ 599))) ∧
        ∃ k, k ≤ retries ∧ outs k = SafeGet.Outcome.resp s ∧
          (∀ j, j < k → SafeGet.retried retry (outs j)) ∧
          (SafeGet.safe_get retry outs retries).2 = k + 1) ∧
      ((SafeGet.safe_get retry outs retries).1 = none →
        ∀ j, j ≤ retries → SafeGet.retried retry (outs j)) := by
  intro retry hretry
  obtain ⟨h1, h2, h3⟩ :=
    SafeGet.loop_spec retry outs (retries + 1) (retries + 1) (le_refl _)
  rw [Nat.sub_self] at h2 h3
  refine ⟨h1, ?_, ?_⟩
  · intro s hsome
    obtain ⟨hrf, k, _, hk2, hk3, hk4, hk5⟩ := h2 s hsome
    have hs599 : s ≤ 599 := hs k s hk3
    have hclaim : ¬ (s = 429 ∨ (500 ≤ s ∧ s ≤ 599)) := by
      rcases List.mem_pair.mp hretry with hre | hre
      · subst hre
        simp [SafeGet.retryTP] at hrf
        omega
      · subst hre
        simp [SafeGet.retryBC] at hrf
        omega
    exact ⟨hclaim, k, by omega, hk3, fun j hj => hk4 j (Nat.zero_le j) hj, hk5⟩
  · intro hn j hj
    exact h3 hn j (Nat.zero_le j) (by omega)

/-- Witness for C9: a stream of plain 404 responses with retries = 5;
the status bound hypothesis holds for the stream. -/
theorem thm_C9_witness :
    (∀ i s, SafeGet.outsW i = SafeGet.Outcome.resp s → s ≤ 599) ∧
    (∀ retry ∈ [SafeGet.retryTP, SafeGet.retryBC],
      (SafeGet.safe_get retry SafeGet.outsW 5).2 ≤ 6 ∧
      (∀ s, (SafeGet.safe_get retry SafeGet.outsW 5).1 = some s →
        (¬ (s = 429 ∨ (500 ≤ s ∧ s ≤ 599))) ∧
        ∃ k, k ≤ 5 ∧ SafeGet.outsW k = SafeGet.Outcome.resp s ∧
          (∀ j, j < k → SafeGet.retried retry (SafeGet.outsW j)) ∧
          (SafeGet.safe_get retry SafeGet.outsW 5).2 = k + 1) ∧
      ((SafeGet.safe_get retry SafeGet.outsW 5).1 = none →
        ∀ j, j ≤ 5 → SafeGet.retried retry (SafeGet.outsW j))) := by
  have hs : ∀ i s, SafeGet.outsW i = SafeGet.Outcome.resp s → s ≤ 599 := by
    intro i s h
    simp [SafeGet.outsW] at h
    omega
  exact ⟨hs, thm_C9 SafeGet.outsW 5 hs⟩

namespace Cursor

theorem bump_le (acc : ℤ) (o : Option ℤ) : acc ≤ bumpNewest acc o := by
  cases o with
  | none => simp [bumpNewest]
  | some ts =>
    simp only [bumpNewest]
    split <;> omega

theorem foldl_bump_ge (fetched : List (Option ℤ)) :
    ∀ init : ℤ, init ≤ fetched.foldl bumpNewest init := by
  induction fetched with
  | nil => intro init; simp
  | cons o os ih =>
    intro init
    calc init ≤ bumpNewest init o := bump_le init o
    _ ≤ _ := ih _

theorem foldl_bump_mem_le (fetched : List (Option ℤ)) :
    ∀ init a : ℤ, some a ∈ fetched → a ≤ fetched.foldl bumpNewest init := by
  induction fetched with
  | nil =>
    intro init a ha
    simp at ha
  | cons o os ih =>
    intro init a ha
    rcases List.mem_cons.mp ha with he | hm
    · subst he
      have h1 : a ≤ bumpNewest init (some a) := by
        simp only [bumpNewest]
        split <;> omega
      calc a ≤ bumpNewest init (some a) := h1
      _ ≤ _ := foldl_bump_ge os _
    · exact ih _ a hm

theorem foldl_bump_mem_or (fetched : List (Option ℤ)) :
    ∀ init : ℤ, fetched.foldl bumpNewest init = init ∨
      some (fetched.foldl bumpNewest init) ∈ fetched := by
  induction fetched with
  | nil => intro init; left; rfl
  | cons o os ih =>
    intro init
    have hfold : (o :: os).foldl bumpNewest init = os.foldl bumpNewest (bumpNewest init o) :=
      rfl
    rcases ih (bumpNewest init o) with h | h
    · rw [hfold, h]
      cases o with
      | none => left; rfl
      | some ts =>
        simp only [bumpNewest]
        split
        · right
          exact List.mem_cons_self _ _
        · left; rfl
    · right
      rw [hfold]
      exact List.mem_cons_of_mem o h

end Cursor

/-- Claim C4: for a subject whose run fetched at least one activity —
all with parseable start_date timestamps that are positive epoch seconds
and at least the stored cursor, as the after-filter of the activities
request guarantees — the cursor written to the checkpoint by timepass.py
is exactly the maximum start_date timestamp among the fetched
activities, and it does not depend on the wall-clock time at which the
checkpoint is written. -/
theorem thm_C4 (acts : List ℤ) (last_ts : Option ℤ) (now₁ now₂ : ℤ)
    (hne : acts ≠ [])
    (hpos : ∀ a ∈ acts, 0 < a)
    (hafter : ∀ a ∈ acts, last_ts.getD 0 ≤ a) :
    Cursor.updateCursor now₁ last_ts (acts.map some) =
      Cursor.updateCursor now₂ last_ts (acts.map some) ∧
    ∃ m, Cursor.updateCursor now₁ last_ts (acts.map some) = some m ∧
      m ∈ acts ∧ (∀ a ∈ acts, a ≤ m) := by
  obtain ⟨a0, rest, rfl⟩ := List.exists_cons_of_ne_nil hne
  set l := a0 :: rest with hl
  set m := Cursor.newestTs last_ts (l.map some) with hm
  have hmax : ∀ a ∈ l, a ≤ m := by
    intro a ha
    exact Cursor.foldl_bump_mem_le (l.map some) _ a (List.mem_map_of_mem some ha)
  have hmem : m ∈ l := by
    rcases Cursor.foldl_bump_mem_or (l.map some) (last_ts.getD 0) with h | h
    · have ha0 : a0 ≤ m := hmax a0 (List.mem_cons_self _ _)
      have hinit : last_ts.getD 0 ≤ a0 := hafter a0 (List.mem_cons_self _ _)
      have hma0 : m = a0 := by
        have : m = last_ts.getD 0 := h
        omega
      rw [hma0]
      exact List.mem_cons_self _ _
    · obtain ⟨b, hb, hbe⟩ := List.mem_map.mp h
      have h2 : some b = some m := hbe
      rw [← Option.some.inj h2]
      exact hb
  have hm0 : m ≠ 0 := by
    have := hpos m hmem
    omega
  have hemp : ((l.map some).isEmpty) = false := rfl
  constructor
  · simp [Cursor.updateCursor, hemp, ← hm, hm0]
  · refine ⟨m, ?_, hmem, hmax⟩
    simp [Cursor.updateCursor, hemp, ← hm, hm0]

/-- Witness for C4: activities with timestamps 100 and 200, stored
cursor 50, two different checkpoint write times. -/
theorem thm_C4_witness :
    (([100, 200] : List ℤ) ≠ []) ∧
    (Cursor.updateCursor 999 (some 50) (([100, 200] : List ℤ).map some) =
      Cursor.updateCursor 42 (some 50) (([100, 200] : List ℤ).map some) ∧
    ∃ m, Cursor.updateCursor 999 (some 50) (([100, 200] : List ℤ).map some) = some m ∧
      m ∈ ([100, 200] : List ℤ) ∧ (∀ a ∈ ([100, 200] : List ℤ), a ≤ m)) := by
  exact ⟨by decide, thm_C4 [100, 200] (some 50) 999 42 (by decide) (by decide) (by decide)⟩

namespace Paginate

theorem isEmpty_false_of_ne_nil {α : Type} {l : List α} (h : l ≠ []) :
    l.isEmpty = false := by
  cases l with
  | nil => exact absurd rfl h
  | cons a t => rfl

theorem fetchTP_stop_isSome {α : Type} (pages : ℕ → ℕ × List α) (perPage : ℕ) :
    ∀ fuel page acc reqs, (∃ j, j < fuel ∧ stopsTP perPage (pages (page + j))) →
      (fetchTP pages perPage fuel page acc reqs).isSome = true := by
  intro fuel
  induction fuel with
  | zero =>
    intro page acc reqs h
    obtain ⟨j, hj, _⟩ := h
    omega
  | succ fuel ih =>
    intro page acc reqs h
    obtain ⟨j, hj, hstop⟩ := h
    by_cases h200 : (pages page).1 = 200
    · by_cases hemp : (pages page).2.isEmpty = true
      · simp [fetchTP, h200, hemp]
      · by_cases hshort : (pages page).2.length < perPage
        · simp [fetchTP, h200, hemp, hshort]
        · have hj0 : j ≠ 0 := by
            intro h0
            subst h0
            rcases hstop with hs | hs | hs
            · exact hs h200
            · have hs2 : (pages page).2 = [] := hs
              exact hemp (by simp [hs2])
            · exact hshort hs
          have hrec : fetchTP pages perPage (fuel + 1) page acc reqs =
              fetchTP pages perPage fuel (page + 1) (acc ++ (pages page).2) (reqs ++ [page]) := by
            simp [fetchTP, h200, hemp, hshort]
          rw [hrec]
          apply ih
          refine ⟨j - 1, by omega, ?_⟩
          rw [show page + 1 + (j - 1) = page + j by omega]
          exact hstop
    · simp [fetchTP, h200]

theorem fetchLB_stop_isSome {α : Type} (pages : ℕ → ℕ × List α) :
    ∀ fuel page acc reqs, (∃ j, j < fuel ∧ stopsLB (pages (page + j))) →
      (fetchLB pages fuel page acc reqs).isSome = true := by
  intro fuel
  induction fuel with
  | zero =>
    intro page acc reqs h
    obtain ⟨j, hj, _⟩ := h
    omega
  | succ fuel ih =>
    intro page acc reqs h
    obtain ⟨j, hj, hstop⟩ := h
    by_cases h200 : (pages page).1 = 200
    · by_cases hemp : (pages page).2.isEmpty = true
      · simp [fetchLB, h200, hemp]
      · have hj0 : j ≠ 0 := by
          intro h0
          subst h0
          rcases hstop with hs | hs
          · exact hs h200
          · have hs2 : (pages page).2 = [] := hs
            exact hemp (by simp [hs2])
        have hrec : fetchLB pages (fuel + 1) page acc reqs =
            fetchLB pages fuel (page + 1) (acc ++ (pages page).2) (reqs ++ [page]) := by
          simp [fetchLB, h200, hemp]
        rw [hrec]
        apply ih
        refine ⟨j - 1, by omega, ?_⟩
        rw [show page + 1 + (j - 1) = page + j by omega]
        exact hstop
    · simp [fetchLB, h200]

theorem fetchLB_reqs_mono {α : Type} (pages : ℕ → ℕ × List α) :
    ∀ fuel page acc reqs out q, q ∈ reqs →
      fetchLB pages fuel page acc reqs = some out → q ∈ out.2 := by
  intro fuel
  induction fuel with
  | zero =>
    intro page acc reqs out q hq h
    simp [fetchLB] at h
  | succ fuel ih =>
    intro page acc reqs out q hq h
    by_cases h200 : (pages page).1 = 200
    · by_cases hemp : (pages page).2.isEmpty = true
      · simp [fetchLB, h200, hemp] at h
        rw [← h]
        exact List.mem_append_left _ hq
      · have hrec : fetchLB pages (fuel + 1) page acc reqs =
            fetchLB pages fuel (page + 1) (acc ++ (pages page).2) (reqs ++ [page]) := by
          simp [fetchLB, h200, hemp]
        rw [hrec] at h
        exact ih _ _ _ out q (List.mem_append_left _ hq) h
    · simp [fetchLB, h200] at h
      rw [← h]
      exact List.mem_append_left _ hq

theorem fetchLB_page_requested {α : Type} (pages : ℕ → ℕ × List α) :
    ∀ fuel page acc reqs out, fetchLB pages fuel page acc reqs = some out →
      page ∈ out.2 := by
  intro fuel
  cases fuel with
  | zero =>
    intro page acc reqs out h
    simp [fetchLB] at h
  | succ fuel =>
    intro page acc reqs out h
    by_cases h200 : (pages page).1 = 200
    · by_cases hemp : (pages page).2.isEmpty = true
      · simp [fetchLB, h200, hemp] at h
        rw [← h]
        exact List.mem_append_right _ (List.mem_singleton_self _)
      · have hrec : fetchLB pages (fuel + 1) page acc reqs =
            fetchLB pages fuel (page + 1) (acc ++ (pages page).2) (reqs ++ [page]) := by
          simp [fetchLB, h200, hemp]
        rw [hrec] at h
        exact fetchLB_reqs_mono pages fuel _ _ _ out page
          (List.mem_append_right _ (List.mem_singleton_self _)) h
    · simp [fetchLB, h200] at h
      rw [← h]
      exact List.mem_append_right _ (List.mem_singleton_self _)

end Paginate

/-- Claim C5, counterexample: the leaderboard fetch_activities paginator
does not treat a short-but-nonempty page as final.  With per_page = 100,
page 1 returning 200 with a single record and page 2 empty, it still
requests page 2 after the short page 1 (the requested page list is
[1, 2]). -/
theorem thm_C5_cex :
    (Paginate.pagesW 1).1 = 200 ∧ (Paginate.pagesW 1).2 ≠ [] ∧
    (Paginate.pagesW 1).2.length < 100 ∧
    Paginate.fetch_activities Paginate.pagesW 3 = some ([7], [1, 2]) := by
  decide

/-- Claim C5, amended: both paginators start at page 1 and a strictly
empty page is a definite stop.  timepass.py fetch_activities_for_athlete
also treats a short-but-nonempty page as the final page (its records are
kept, no further page is requested), and terminates whenever some page
within the fuel bound is non-200, empty or short.  The leaderboard
fetch_activities variants, however, stop only on a non-200 or empty
page: after a short-but-nonempty page they request the next page, and
they terminate only once some page is non-200 or empty. -/
theorem thm_C5 {α : Type} (pages : ℕ → ℕ × List α) (perPage fuel page : ℕ)
    (acc : List α) (reqs : List ℕ) :
    (Paginate.fetch_activities_for_athlete pages perPage fuel =
        Paginate.fetchTP pages perPage fuel 1 [] []) ∧
    (Paginate.fetch_activities pages fuel = Paginate.fetchLB pages fuel 1 [] []) ∧
    ((pages page).1 = 200 → (pages page).2 = [] →
      Paginate.fetchTP pages perPage (fuel + 1) page acc reqs =
        some (acc, reqs ++ [page])) ∧
    ((pages page).1 = 200 → (pages page).2 ≠ [] → (pages page).2.length < perPage →
      Paginate.fetchTP pages perPage (fuel + 1) page acc reqs =
        some (acc ++ (pages page).2, reqs ++ [page])) ∧
    ((∃ j, j < fuel ∧ Paginate.stopsTP perPage (pages (page + j))) →
      (Paginate.fetchTP pages perPage fuel page acc reqs).isSome = true) ∧
    ((pages page).1 = 200 → (pages page).2 ≠ [] →
      (Paginate.fetchLB pages (fuel + 1) page acc reqs =
        Paginate.fetchLB pages fuel (page + 1) (acc ++ (pages page).2) (reqs ++ [page])) ∧
      (∀ out, Paginate.fetchLB pages (fuel + 1) page acc reqs = some out →
        (page + 1) ∈ out.2)) ∧
    ((pages page).1 = 200 → (pages page).2 = [] →
      Paginate.fetchLB pages (fuel + 1) page acc reqs = some (acc, reqs ++ [page])) ∧
    ((∃ j, j < fuel ∧ Paginate.stopsLB (pages (page + j))) →
      (Paginate.fetchLB pages fuel page acc reqs).isSome = true) := by
  refine ⟨rfl, rfl, ?_, ?_, ?_, ?_, ?_, ?_⟩
  · intro h200 hemp
    simp [Paginate.fetchTP, h200, hemp]
  · intro h200 hne hshort
    simp [Paginate.fetchTP, h200, Paginate.isEmpty_false_of_ne_nil hne, hshort]
  · exact Paginate.fetchTP_stop_isSome pages perPage fuel page acc reqs
  · intro h200 hne
    have hstep : Paginate.fetchLB pages (fuel + 1) page acc reqs =
        Paginate.fetchLB pages fuel (page + 1) (acc ++ (pages page).2) (reqs ++ [page]) := by
      simp [Paginate.fetchLB, h200, Paginate.isEmpty_false_of_ne_nil hne]
    refine ⟨hstep, ?_⟩
    intro out hout
    rw [hstep] at hout
    exact Paginate.fetchLB_page_requested pages fuel (page + 1) _ _ out hout
  · intro h200 hemp
    simp [Paginate.fetchLB, h200, hemp]
  · exact Paginate.fetchLB_stop_isSome pages fuel page acc reqs

/-- Witness for C5: the concrete page table pagesW (page 1 short and
nonempty, page 2 empty), per_page = 100, fuel 3. -/
theorem thm_C5_witness :
    (Paginate.fetchTP Paginate.pagesW 100 (2 + 1) 2 ([] : List ℕ) [] =
      some ([], [] ++ [2])) ∧
    (Paginate.fetchTP Paginate.pagesW 100 (2 + 1) 1 ([] : List ℕ) [] =
      some ([] ++ (Paginate.pagesW 1).2, [] ++ [1])) ∧
    ((Paginate.fetchTP Paginate.pagesW 100 2 1 ([] : List ℕ) []).isSome = true) ∧
    (Paginate.fetchLB Paginate.pagesW (2 + 1) 1 ([] : List ℕ) [] =
      Paginate.fetchLB Paginate.pagesW 2 (1 + 1) ([] ++ (Paginate.pagesW 1).2) ([] ++ [1])) ∧
    (∀ out, Paginate.fetchLB Paginate.pagesW (2 + 1) 1 ([] : List ℕ) [] = some out →
      (1 + 1) ∈ out.2) ∧
    (Paginate.fetchLB Paginate.pagesW (2 + 1) 2 ([] : List ℕ) [] =
      some ([], [] ++ [2])) ∧
    ((Paginate.fetchLB Paginate.pagesW 2 1 ([] : List ℕ) []).isSome = true) := by
  have h1 := thm_C5 Paginate.pagesW 100 2 2 ([] : List ℕ) []
  have h2 := thm_C5 Paginate.pagesW 100 2 1 ([] : List ℕ) []
  exact ⟨h1.2.2.1 rfl rfl,
    h2.2.2.2.1 rfl (by decide) (by decide),
    h2.2.2.2.2.1 ⟨0, by omega, Or.inr (Or.inr (by decide))⟩,
    (h2.2.2.2.2.2.1 rfl (by decide)).1,
    (h2.2.2.2.2.2.1 rfl (by decide)).2,
    h1.2.2.2.2.2.2.1 rfl rfl,
    h2.2.2.2.2.2.2.2 ⟨1, by omega, Or.inr (by decide)⟩⟩

/-- Claim C8, counterexample: fetch_strava_activities.py stores
distance_km unrounded.  For a distance of 1234.5 meters the stored
kilometers value is 1.2345 — not 1.23, the value rounded to exactly 2
decimal places that the claim requires. -/
theorem thm_C8_cex :
    Distance.distanceKmFetch (some (2469 / 2)) = 2469 / 2000 ∧
    Distance.round2 ((2469 / 2) / 1000) = 123 / 100 ∧
    Distance.distanceKmFetch (some (2469 / 2)) ≠ Distance.round2 ((2469 / 2) / 1000) := by
  refine ⟨?_, ?_, ?_⟩ <;>
    norm_num [Distance.distanceKmFetch, Distance.round2]

/-- Claim C8, amended: every stored record row carries both the raw
meters and a derived kilometers value computed once at ingestion.
timepass.py (with process_missing_athletes.py) rounds the kilometers
column to 2 decimal places at ingestion and webhook_server.py stores
round(m/1000, 2); but fetch_strava_activities.py stores m/1000
unrounded (its CSV, JSON and SQL exporters emit the stored value without
recomputation, so they agree with each other but not with the 2-decimal
convention of the other scripts). -/
theorem thm_C8 (d : ℚ) (hd : d ≠ 0) :
    Distance.distanceKmTimepass (some d) = Distance.round2 (d / 1000) ∧
    Distance.distanceKmWebhook (some d) = some (Distance.round2 (d / 1000)) ∧
    Distance.distanceKmFetch (some d) = d / 1000 := by
  refine ⟨?_, rfl, ?_⟩
  · simp [Distance.distanceKmTimepass, hd]
  · simp [Distance.distanceKmFetch, hd]

/-- Witness for C8 at a distance of 5 meters. -/
theorem thm_C8_witness :
    ((5 : ℚ) ≠ 0) ∧
    (Distance.distanceKmTimepass (some 5) = Distance.round2 (5 / 1000) ∧
     Distance.distanceKmWebhook (some 5) = some (Distance.round2 (5 / 1000)) ∧
     Distance.distanceKmFetch (some 5) = 5 / 1000) := by
  exact ⟨by norm_num, thm_C8 5 (by norm_num)⟩

/-- Claim C10: for every webhook event whose object_type is not
"activity", or whose aspect_type is neither "create" nor "update", or
whose owner id has no (truthy) refresh token stored in the checkpoint,
handle_event returns without performing any token exchange and leaves
the checkpoint, the JSON output and the CSV output unchanged. -/
theorem thm_C10 {ρ : Type} (e : Webhook.Event) (cp : Webhook.WCp)
    (json csv : List (ℤ × ρ)) (exch : Option Webhook.WTokenResp)
    (fetched : Option (ℤ × ρ))
    (h : e.object_type ≠ some "activity" ∨
      ¬ (e.aspect_type = some "create" ∨ e.aspect_type = some "update") ∨
      (∀ entry, Webhook.lookupW cp (Webhook.athleteIdStr e) = some entry →
        entry.refresh_token = none ∨ entry.refresh_token = some "")) :
    Webhook.handle_event e cp json csv exch fetched = ⟨0, cp, json, csv⟩ := by
  unfold Webhook.handle_event
  by_cases h1 : e.object_type ≠ some "activity"
  · rw [if_pos h1]
  · rw [if_neg h1]
    by_cases h2 : ¬ (e.aspect_type = some "create" ∨ e.aspect_type = some "update")
    · rw [if_pos h2]
    · rw [if_neg h2]
      by_cases h3 : Webhook.athleteIdStr e = "" ∨ Webhook.truthyI e.object_id = false
      · rw [if_pos h3]
      · rw [if_neg h3]
        rcases h with h | h | h
        · exact absurd h h1
        · exact absurd h h2
        · cases hl : Webhook.lookupW cp (Webhook.athleteIdStr e) with
          | none => rfl
          | some entry =>
            rcases h entry hl with ht | ht
            · show (match entry.refresh_token with
                | none => (⟨0, cp, json, csv⟩ : Webhook.HResult ρ)
                | some rt =>
                  if rt = "" then ⟨0, cp, json, csv⟩
                  else
                    match exch with
                    | none => ⟨1, cp, json, csv⟩
                    | some tr =>
                      let cp1 := match tr.refresh_token with
                        | some nr => if nr ≠ "" then
                            Webhook.setTokW cp (Webhook.athleteIdStr e) nr else cp
                        | none => cp
                      match fetched with
                      | none => ⟨1, cp1, json, csv⟩
                      | some rec =>
                        ⟨1, cp1, Webhook.append_activity_to_json json rec,
                          Webhook.append_activity_to_csv csv rec⟩) = ⟨0, cp, json, csv⟩
              rw [ht]
            · show (match entry.refresh_token with
                | none => (⟨0, cp, json, csv⟩ : Webhook.HResult ρ)
                | some rt =>
                  if rt = "" then ⟨0, cp, json, csv⟩
                  else
                    match exch with
                    | none => ⟨1, cp, json, csv⟩
                    | some tr =>
                      let cp1 := match tr.refresh_token with
                        | some nr => if nr ≠ "" then
                            Webhook.setTokW cp (Webhook.athleteIdStr e) nr else cp
                        | none => cp
                      match fetched with
                      | none => ⟨1, cp1, json, csv⟩
                      | some rec =>
                        ⟨1, cp1, Webhook.append_activity_to_json json rec,
                          Webhook.append_activity_to_csv csv rec⟩) = ⟨0, cp, json, csv⟩
              rw [ht]
              simp

/-- Witness for C10: an event with object_type "athlete" against an
empty checkpoint and empty output files. -/
theorem thm_C10_witness :
    (Webhook.eventW.object_type ≠ some "activity" ∨
      ¬ (Webhook.eventW.aspect_type = some "create" ∨
          Webhook.eventW.aspect_type = some "update") ∨
      (∀ entry, Webhook.lookupW [] (Webhook.athleteIdStr Webhook.eventW) = some entry →
        entry.refresh_token = none ∨ entry.refresh_token = some "")) ∧
    Webhook.handle_event Webhook.eventW [] ([] : List (ℤ × ℕ)) [] none none =
      ⟨0, [], [], []⟩ := by
  have h : Webhook.eventW.object_type ≠ some "activity" ∨
      ¬ (Webhook.eventW.aspect_type = some "create" ∨
          Webhook.eventW.aspect_type = some "update") ∨
      (∀ entry, Webhook.lookupW [] (Webhook.athleteIdStr Webhook.eventW) = some entry →
        entry.refresh_token = none ∨ entry.refresh_token = some "") :=
    Or.inl (by decide)
  exact ⟨h, thm_C10 Webhook.eventW [] [] [] none none h⟩

namespace Rotation

theorem getEntry_eq (cp : CP) (key : String) :
    getEntry cp key =
      ((cp.find? (fun x => decide (x.1 = key))).map Prod.snd).getD ⟨none, none⟩ := by
  unfold getEntry
  cases h : (cp.find? (fun x => decide (x.1 = key))) <;> simp [h]

theorem getEntry_cons_ne (x : String × Entry) (l : CP) (key : String) (hx : x.1 ≠ key) :
    getEntry (x :: l) key = getEntry l key := by
  unfold getEntry
  rw [List.find?_cons_of_neg]
  simp [hx]

theorem getEntry_updEntry (g : Entry → Entry) (dflt : Entry) (key : String) :
    ∀ cp : CP, getEntry (updEntry g dflt cp key) key =
      ((cp.find? (fun x => decide (x.1 = key))).map (fun x => g x.2)).getD dflt := by
  intro cp
  induction cp with
  | nil =>
    simp [updEntry, getEntry]
  | cons x cp ih =>
    by_cases hx : x.1 = key
    · have hany : (x :: cp).any (fun y => decide (y.1 = key)) = true := by
        simp [List.any_cons, hx]
      have hupd : updEntry g dflt (x :: cp) key =
          (x.1, g x.2) :: cp.map (fun y => if y.1 = key then (y.1, g y.2) else y) := by
        unfold updEntry
        rw [if_pos hany]
        simp [hx]
      rw [hupd]
      unfold getEntry
      rw [List.find?_cons_of_pos _ (by simp [hx]), List.find?_cons_of_pos _ (by simp [hx])]
      simp
    · have hanyc : ((x :: cp).any (fun y => decide (y.1 = key))) =
          (cp.any (fun y => decide (y.1 = key))) := by
        simp [List.any_cons, hx]
      have hupd : updEntry g dflt (x :: cp) key = x :: updEntry g dflt cp key := by
        unfold updEntry
        rw [hanyc]
        by_cases h2 : cp.any (fun y => decide (y.1 = key)) = true
        · rw [if_pos h2, if_pos h2]
          simp [hx]
        · rw [if_neg h2, if_neg h2]
          rfl
      rw [hupd, getEntry_cons_ne _ _ _ hx, ih, List.find?_cons_of_neg _ (by simp [hx])]

theorem getEntry_setTok (cp : CP) (key tok : String) :
    (getEntry (setTok cp key tok) key).refresh_token = some tok := by
  unfold setTok
  rw [getEntry_updEntry]
  cases h : (cp.find? (fun x => decide (x.1 = key))) <;> simp [h]

theorem getEntry_setSeen_token (cp : CP) (key now : String) :
    (getEntry (setSeen cp key now) key).refresh_token =
      (getEntry cp key).refresh_token := by
  unfold setSeen
  rw [getEntry_updEntry, getEntry_eq]
  cases h : (cp.find? (fun x => decide (x.1 = key))) <;> simp [h]

end Rotation

/-- Claim C7: when the token exchange for a subject returns a rotated
(truthy) refresh secret, build_cyclists_db.py writes it into the
checkpoint entry and every branch of the iteration persists that
checkpoint via save_checkpoint before the run moves on; credential
resolution prefers the checkpoint-stored token over the roster token, so
the next exchange for that subject — also after a process restart, since
load_checkpoint returns the persisted checkpoint verbatim — uses the
rotated secret whatever the roster still holds. -/
theorem thm_C7 (cp : Rotation.CP) (key : String) (sheetTok : Option String)
    (tr : Rotation.TokenResp) (r : String) (profileOk : Bool) (now : String)
    (hres : Rotation.truthy (Rotation.resolveRefresh cp key sheetTok) = true)
    (hrot : tr.refresh_token = some r) (hr : r ≠ "") :
    (Rotation.getEntry
        (Rotation.processAthlete cp key sheetTok (some tr) profileOk now) key).refresh_token
      = some r ∧
    (∀ rosterTok, Rotation.resolveRefresh
        (Rotation.processAthlete cp key sheetTok (some tr) profileOk now) key rosterTok
      = some r) := by
  have htr : Rotation.truthy tr.refresh_token = true := by
    rw [hrot]
    simp [Rotation.truthy, hr]
  have hgetD : tr.refresh_token.getD "" = r := by
    rw [hrot]
    rfl
  have htok : (Rotation.getEntry
      (Rotation.processAthlete cp key sheetTok (some tr) profileOk now) key).refresh_token
      = some r := by
    cases profileOk with
    | false =>
      have hp : Rotation.processAthlete cp key sheetTok (some tr) false now =
          Rotation.setSeen (Rotation.setTok cp key r) key now := by
        simp [Rotation.processAthlete, hres, htr, hgetD]
      rw [hp, Rotation.getEntry_setSeen_token, Rotation.getEntry_setTok]
    | true =>
      have hp : Rotation.processAthlete cp key sheetTok (some tr) true now =
          Rotation.setTok
            (Rotation.setSeen (Rotation.setTok cp key r) key now) key r := by
        simp [Rotation.processAthlete, hres, htr, hgetD]
      rw [hp, Rotation.getEntry_setTok]
  refine ⟨htok, ?_⟩
  intro rosterTok
  unfold Rotation.resolveRefresh
  rw [htok]
  simp [Rotation.orTruthy, hr]

/-- Witness for C7: empty checkpoint, roster token "sheettok", exchange
returning rotated token "newtok", profile fetch succeeding. -/
theorem thm_C7_witness :
    (Rotation.truthy (Rotation.resolveRefresh [] "2_Alice" (some "sheettok")) = true) ∧
    ((⟨some "acc", some "newtok"⟩ : Rotation.TokenResp).refresh_token = some "newtok") ∧
    ("newtok" ≠ "") ∧
    ((Rotation.getEntry (Rotation.processAthlete [] "2_Alice" (some "sheettok")
        (some ⟨some "acc", some "newtok"⟩) true "t") "2_Alice").refresh_token
        = some "newtok" ∧
     (∀ rosterTok, Rotation.resolveRefresh (Rotation.processAthlete [] "2_Alice"
        (some "sheettok") (some ⟨some "acc", some "newtok"⟩) true "t") "2_Alice" rosterTok
        = some "newtok")) := by
  refine ⟨by decide, rfl, by decide, ?_⟩
  exact thm_C7 [] "2_Alice" (some "sheettok") ⟨some "acc", some "newtok"⟩ "newtok" true "t"
    (by decide) rfl (by decide)

namespace Merge

theorem lookupId_nil {V : Type} (i : ℤ) : lookupId ([] : List (ℤ × V)) i = none := rfl

theorem lookupId_cons {V : Type} (x : ℤ × V) (l : List (ℤ × V)) (i : ℤ) :
    lookupId (x :: l) i = if x.1 = i then some x.2 else lookupId l i := by
  unfold lookupId
  by_cases h : x.1 = i
  · rw [List.find?_cons_of_pos _ (by simp [h]), if_pos h]
    rfl
  · rw [List.find?_cons_of_neg _ (by simp [h]), if_neg h]

theorem lookupId_append {V : Type} (l1 l2 : List (ℤ × V)) (i : ℤ) :
    lookupId (l1 ++ l2) i = (lookupId l1 i).orElse (fun _ => lookupId l2 i) := by
  induction l1 with
  | nil => simp [lookupId_nil]
  | cons x xs ih =>
    rw [List.cons_append, lookupId_cons, lookupId_cons]
    by_cases h : x.1 = i
    · simp [h]
    · simp [h, ih]

theorem mem_dropDupFirstAux {V : Type} :
    ∀ (l : List (ℤ × V)) (seen : List ℤ) (x : ℤ × V),
      x ∈ dropDupFirstAux seen l → x ∈ l ∧ x.1 ∉ seen := by
  intro l
  induction l with
  | nil =>
    intro seen x hx
    simp [dropDupFirstAux] at hx
  | cons r rs ih =>
    intro seen x hx
    by_cases hc : seen.contains r.1
    · rw [dropDupFirstAux, if_pos hc] at hx
      obtain ⟨h1, h2⟩ := ih seen x hx
      exact ⟨List.mem_cons_of_mem _ h1, h2⟩
    · rw [dropDupFirstAux, if_neg hc] at hx
      rcases List.mem_cons.mp hx with he | hm
      · subst he
        exact ⟨List.mem_cons_self _ _, by simpa using hc⟩
      · obtain ⟨h1, h2⟩ := ih _ x hm
        exact ⟨List.mem_cons_of_mem _ h1,
          fun hs => h2 (List.mem_cons_of_mem _ hs)⟩

theorem nodup_keys_dropDupFirstAux {V : Type} :
    ∀ (l : List (ℤ × V)) (seen : List ℤ),
      ((dropDupFirstAux seen l).map Prod.fst).Nodup := by
  intro l
  induction l with
  | nil =>
    intro seen
    simp [dropDupFirstAux]
  | cons r rs ih =>
    intro seen
    by_cases hc : seen.contains r.1
    · rw [dropDupFirstAux, if_pos hc]
      exact ih seen
    · rw [dropDupFirstAux, if_neg hc, List.map_cons]
      refine List.nodup_cons.mpr ⟨?_, ih _⟩
      intro hmem
      obtain ⟨y, hy, hye⟩ := List.mem_map.mp hmem
      have h2 := (mem_dropDupFirstAux rs (r.1 :: seen) y hy).2
      exact h2 (by rw [hye]; exact List.mem_cons_self _ _)

theorem lookup_dropDupFirstAux {V : Type} :
    ∀ (l : List (ℤ × V)) (seen : List ℤ) (i : ℤ), i ∉ seen →
      lookupId (dropDupFirstAux seen l) i = lookupId l i := by
  intro l
  induction l with
  | nil => intro seen i _; rfl
  | cons r rs ih =>
    intro seen i hi
    by_cases hc : seen.contains r.1
    · rw [dropDupFirstAux, if_pos hc, lookupId_cons]
      have hri : ¬ (r.1 = i) := by
        intro h
        exact hi (h ▸ (by simpa using hc))
      rw [if_neg hri]
      exact ih seen i hi
    · rw [dropDupFirstAux, if_neg hc, lookupId_cons, lookupId_cons]
      by_cases hri : r.1 = i
      · rw [if_pos hri, if_pos hri]
      · rw [if_neg hri, if_neg hri]
        apply ih
        intro hmem
        rcases List.mem_cons.mp hmem with he | hs
        · exact hri he.symm
        · exact hi hs

theorem lookup_dropDupFirst {V : Type} (l : List (ℤ × V)) (i : ℤ) :
    lookupId (dropDupFirst l) i = lookupId l i :=
  lookup_dropDupFirstAux l [] i (by simp)

theorem nodup_keys_dropDupFirst {V : Type} (l : List (ℤ × V)) :
    ((dropDupFirst l).map Prod.fst).Nodup :=
  nodup_keys_dropDupFirstAux l []

theorem lookup_reverse_of_nodup {V : Type} :
    ∀ (l : List (ℤ × V)), ((l.map Prod.fst).Nodup) → ∀ i : ℤ,
      lookupId l.reverse i = lookupId l i := by
  intro l
  induction l with
  | nil => intro _ i; rfl
  | cons x xs ih =>
    intro hnd i
    have hnd2 : (x.1 :: xs.map Prod.fst).Nodup := by
      rw [List.map_cons] at hnd
      exact hnd
    obtain ⟨hx, hxs⟩ := List.nodup_cons.mp hnd2
    have hsingle : lookupId [x] i = if x.1 = i then some x.2 else none := by
      rw [lookupId_cons, lookupId_nil]
    rw [List.reverse_cons, lookupId_append, hsingle, lookupId_cons, ih hxs i]
    by_cases hxi : x.1 = i
    · rw [if_pos hxi, if_pos hxi]
      have hnone : lookupId xs i = none := by
        unfold lookupId
        rw [List.find?_eq_none.mpr ?_]
        · rfl
        · intro y hy
          simp only [decide_eq_true_eq]
          intro hyi
          apply hx
          rw [hxi, ← hyi]
          exact List.mem_map_of_mem Prod.fst hy
      rw [hnone]
      rfl
    · rw [if_neg hxi, if_neg hxi]
      cases lookupId xs i <;> rfl

theorem lookup_dropDupLast {V : Type} (l : List (ℤ × V)) (i : ℤ) :
    lookupId (dropDupLast l) i = lookupId l.reverse i := by
  unfold dropDupLast
  rw [lookup_reverse_of_nodup _ (nodup_keys_dropDupFirst _) i, lookup_dropDupFirst]

theorem nodup_keys_dropDupLast {V : Type} (l : List (ℤ × V)) :
    ((dropDupLast l).map Prod.fst).Nodup := by
  unfold dropDupLast
  rw [List.map_reverse]
  exact List.nodup_reverse.mpr (nodup_keys_dropDupFirst l.reverse)

theorem keysOf_map_replace {V : Type} (tbl : List (ℤ × V)) (r : ℤ × V) :
    keysOf (tbl.map (fun x => if x.1 = r.1 then r else x)) = keysOf tbl := by
  unfold keysOf
  rw [List.map_map]
  apply List.map_congr_left
  intro x _
  show ((if x.1 = r.1 then r else x).1) = x.1
  by_cases h : x.1 = r.1
  · rw [if_pos h, h]
  · rw [if_neg h]

theorem lookup_map_replace {V : Type} (r : ℤ × V) (i : ℤ) :
    ∀ tbl : List (ℤ × V),
      lookupId (tbl.map (fun x => if x.1 = r.1 then r else x)) i =
        if i = r.1 then
          (if tbl.any (fun x => decide (x.1 = r.1)) then some r.2 else none)
        else lookupId tbl i := by
  intro tbl
  induction tbl with
  | nil =>
    by_cases h : i = r.1 <;> simp [h, lookupId_nil]
  | cons x xs ih =>
    rw [List.map_cons]
    by_cases hxr : x.1 = r.1
    · rw [if_pos hxr, lookupId_cons, lookupId_cons]
      have hany : ((x :: xs).any (fun y => decide (y.1 = r.1))) = true := by
        simp [List.any_cons, hxr]
      rw [hany]
      by_cases hir : i = r.1
      · rw [if_pos (show r.1 = i from hir.symm), if_pos hir]
        rfl
      · rw [if_neg (show ¬ (r.1 = i) from fun h => hir h.symm), if_neg hir, ih,
          if_neg hir, if_neg (show ¬ (x.1 = i) from by rw [hxr]; exact fun h => hir h.symm)]
    · rw [if_neg hxr, lookupId_cons, lookupId_cons]
      have hany : ((x :: xs).any (fun y => decide (y.1 = r.1))) =
          (xs.any (fun y => decide (y.1 = r.1))) := by
        simp [List.any_cons, hxr]
      rw [hany]
      by_cases hxi : x.1 = i
      · rw [if_pos hxi, if_pos hxi]
        rw [if_neg (show ¬ (i = r.1) from fun h => hxr (hxi ▸ h ▸ rfl))]
      · rw [if_neg hxi, if_neg hxi, ih]

theorem sqlReplace_lookup {V : Type} (tbl : List (ℤ × V)) (r : ℤ × V) (i : ℤ) :
    lookupId (sqlReplace tbl r) i = if i = r.1 then some r.2 else lookupId tbl i := by
  unfold sqlReplace
  by_cases hc : tbl.any (fun x => decide (x.1 = r.1)) = true
  · rw [if_pos hc, lookup_map_replace]
    by_cases hir : i = r.1
    · rw [if_pos hir, if_pos hir, if_pos hc]
    · rw [if_neg hir, if_neg hir]
  · rw [if_neg hc, lookupId_append]
    by_cases hir : i = r.1
    · rw [if_pos hir]
      have hnone : lookupId tbl i = none := by
        unfold lookupId
        rw [List.find?_eq_none.mpr ?_]
        · rfl
        · intro y hy
          simp only [decide_eq_true_eq]
          intro hyi
          apply hc
          rw [List.any_eq_true]
          exact ⟨y, hy, by simp [hyi, hir]⟩
      rw [hnone]
      simp [lookupId_cons, hir]
    · rw [if_neg hir]
      have hri : ¬ (r.1 = i) := fun h => hir h.symm
      cases hv : lookupId tbl i with
      | some v => simp [hv]
      | none => simp [hv, lookupId_cons, hri, lookupId_nil]

theorem nodup_sqlReplace {V : Type} (tbl : List (ℤ × V)) (r : ℤ × V)
    (h : (keysOf tbl).Nodup) : (keysOf (sqlReplace tbl r)).Nodup := by
  unfold sqlReplace
  by_cases hc : tbl.any (fun x => decide (x.1 = r.1)) = true
  · rw [if_pos hc, keysOf_map_replace]
    exact h
  · rw [if_neg hc]
    unfold keysOf at h ⊢
    rw [List.map_append]
    refine List.Nodup.append h (List.nodup_singleton _) ?_
    intro a ha hb
    rw [List.map_singleton, List.mem_singleton] at hb
    subst hb
    obtain ⟨y, hy, hye⟩ := List.mem_map.mp ha
    apply hc
    rw [List.any_eq_true]
    exact ⟨y, hy, by simp [hye]⟩

theorem append_to_db_lookup {V : Type} (i : ℤ) :
    ∀ (rows tbl : List (ℤ × V)),
      lookupId (append_to_db tbl rows) i =
        (lookupId rows.reverse i).orElse (fun _ => lookupId tbl i) := by
  intro rows
  induction rows with
  | nil =>
    intro tbl
    simp [append_to_db, lookupId_nil]
  | cons r rest ih =>
    intro tbl
    have h1 : append_to_db tbl (r :: rest) = append_to_db (sqlReplace tbl r) rest := rfl
    rw [h1, ih, List.reverse_cons, lookupId_append, sqlReplace_lookup]
    cases hv : lookupId rest.reverse i with
    | some v => simp [hv]
    | none =>
      by_cases hir : i = r.1
      · simp [hv, lookupId_cons, hir, lookupId_nil]
      · have hri : ¬ (r.1 = i) := fun h => hir h.symm
        simp [hv, lookupId_cons, hir, hri, lookupId_nil]

theorem nodup_append_to_db {V : Type} :
    ∀ (rows tbl : List (ℤ × V)), (keysOf tbl).Nodup →
      (keysOf (append_to_db tbl rows)).Nodup := by
  intro rows
  induction rows with
  | nil => intro tbl h; exact h
  | cons r rest ih =>
    intro tbl h
    exact ih (sqlReplace tbl r) (nodup_sqlReplace tbl r h)

end Merge

/-- Claim C1, counterexample: re-sending a modified version of an
already-stored record through the timepass.py JSON/Excel merge keeps the
previously stored content, not the most recently supplied one.  With
record 101 stored with content 10 and re-sent with content 20, the
merged store still holds content 10. -/
theorem thm_C1_cex :
    Merge.mergeTimepass [((101 : ℤ), (10 : ℕ))] [(101, 20)] = [(101, 10)] ∧
    Merge.lookupId (Merge.mergeTimepass [((101 : ℤ), (10 : ℕ))] [(101, 20)]) 101 ≠
      some 20 := by
  decide

/-- Claim C1, amended: all three merge paths produce exactly one entry
per distinct Activity_ID; the process_missing_athletes.py merge
(drop_duplicates keep="last") and fetch_strava_activities.py
append_to_db (INSERT OR REPLACE) keep the most-recently-supplied version
of each record (last write wins), but the timepass.py JSON/Excel merge
(drop_duplicates with pandas default keep="first") keeps the
first-supplied version, so a re-sent modified record does NOT overwrite
the stored content there. -/
theorem thm_C1 {V : Type} (prev fresh rows tbl : List (ℤ × V)) (i : ℤ)
    (htbl : (Merge.keysOf tbl).Nodup) :
    ((Merge.keysOf (Merge.mergeTimepass prev fresh)).Nodup ∧
      Merge.lookupId (Merge.mergeTimepass prev fresh) i =
        Merge.lookupId (prev ++ fresh) i) ∧
    ((Merge.keysOf (Merge.mergeProcessMissing prev fresh)).Nodup ∧
      Merge.lookupId (Merge.mergeProcessMissing prev fresh) i =
        Merge.lookupId ((prev ++ fresh).reverse) i) ∧
    ((Merge.keysOf (Merge.append_to_db tbl rows)).Nodup ∧
      Merge.lookupId (Merge.append_to_db tbl rows) i =
        (Merge.lookupId rows.reverse i).orElse (fun _ => Merge.lookupId tbl i)) := by
  refine ⟨⟨?_, ?_⟩, ⟨?_, ?_⟩, ⟨?_, ?_⟩⟩
  · exact Merge.nodup_keys_dropDupFirst _
  · exact Merge.lookup_dropDupFirst _ i
  · exact Merge.nodup_keys_dropDupLast _
  · exact Merge.lookup_dropDupLast _ i
  · exact Merge.nodup_append_to_db rows tbl htbl
  · exact Merge.append_to_db_lookup i rows tbl

/-- Witness for C1: store [(1, 5)] with fresh rows [(1, 6), (2, 7)], SQL
table [(1, 5)] with rows [(1, 6)], looked up at id 1. -/
theorem thm_C1_witness :
    ((Merge.keysOf [((1 : ℤ), (5 : ℕ))]).Nodup) ∧
    (((Merge.keysOf (Merge.mergeTimepass [((1 : ℤ), (5 : ℕ))] [(1, 6), (2, 7)])).Nodup ∧
      Merge.lookupId (Merge.mergeTimepass [((1 : ℤ), (5 : ℕ))] [(1, 6), (2, 7)]) 1 =
        Merge.lookupId ([((1 : ℤ), (5 : ℕ))] ++ [(1, 6), (2, 7)]) 1) ∧
    ((Merge.keysOf (Merge.mergeProcessMissing [((1 : ℤ), (5 : ℕ))] [(1, 6), (2, 7)])).Nodup ∧
      Merge.lookupId (Merge.mergeProcessMissing [((1 : ℤ), (5 : ℕ))] [(1, 6), (2, 7)]) 1 =
        Merge.lookupId (([((1 : ℤ), (5 : ℕ))] ++ [(1, 6), (2, 7)]).reverse) 1) ∧
    ((Merge.keysOf (Merge.append_to_db [((1 : ℤ), (5 : ℕ))] [(1, 6)])).Nodup ∧
      Merge.lookupId (Merge.append_to_db [((1 : ℤ), (5 : ℕ))] [(1, 6)]) 1 =
        (Merge.lookupId ([((1 : ℤ), (6 : ℕ))]).reverse 1).orElse
          (fun _ => Merge.lookupId [((1 : ℤ), (5 : ℕ))] 1))) := by
  exact ⟨by decide, thm_C1 [(1, 5)] [(1, 6), (2, 7)] [(1, 6)] [(1, 5)] 1 (by decide)⟩

namespace RateLimit

theorem pruneD_length_le (w now : ℤ) (dq : List ℤ) :
    (pruneD w now dq).length ≤ dq.length :=
  List.Sublist.length_le (List.dropWhile_sublist _)

theorem pruneD_subset (w now : ℤ) (dq : List ℤ) :
    ∀ x ∈ pruneD w now dq, x ∈ dq :=
  fun _ hx => List.Sublist.subset (List.dropWhile_sublist _) hx

theorem young_le_length (w now : ℤ) (dq : List ℤ) : young w now dq ≤ dq.length :=
  List.length_filter_le _ _

theorem prune_inv (now : ℤ) (rl : RateLimiter) (h : Inv rl) : Inv (prune now rl) := by
  obtain ⟨h1, h2, h3, h4⟩ := h
  exact ⟨le_trans (pruneD_length_le _ _ _) h1,
    le_trans (pruneD_length_le _ _ _) h2,
    fun x hx => h3 x (pruneD_subset _ _ _ x hx),
    fun x hx => h4 x (pruneD_subset _ _ _ x hx)⟩

theorem wait_if_needed_snd (buf now : ℤ) (rl : RateLimiter) :
    (wait_if_needed buf now rl).2 = prune now rl := by
  simp only [wait_if_needed]
  cases h : waitUntil buf (prune now rl) with
  | none => rfl
  | some wu =>
    show (if wu ≠ 0 ∧ now < wu then (wu, prune now rl)
      else (now, prune now rl)).2 = prune now rl
    by_cases hc : wu ≠ 0 ∧ now < wu
    · rw [if_pos hc]
    · rw [if_neg hc]

theorem now_le_wait_fst (buf now : ℤ) (rl : RateLimiter) :
    now ≤ (wait_if_needed buf now rl).1 := by
  simp only [wait_if_needed]
  cases h : waitUntil buf (prune now rl) with
  | none => exact le_refl now
  | some wu =>
    show now ≤ (if wu ≠ 0 ∧ now < wu then (wu, prune now rl)
      else (now, prune now rl)).1
    by_cases hc : wu ≠ 0 ∧ now < wu
    · rw [if_pos hc]
      exact le_of_lt hc.2
    · rw [if_neg hc]

theorem waitUntil_ge_15 (buf : ℤ) (rl : RateLimiter)
    (h : REQ_LIMIT_15MIN ≤ rl.req_deque_15.length) :
    ∃ wu, waitUntil buf rl = some wu ∧
      rl.req_deque_15.headD 0 + REQ_WINDOW_15MIN + buf ≤ wu := by
  simp only [waitUntil, if_pos h]
  by_cases h2 : REQ_LIMIT_1H ≤ rl.req_deque_1h.length
  · rw [if_pos h2]
    exact ⟨_, rfl, le_max_left _ _⟩
  · rw [if_neg h2]
    exact ⟨_, rfl, le_refl _⟩

theorem waitUntil_ge_1h (buf : ℤ) (rl : RateLimiter)
    (h : REQ_LIMIT_1H ≤ rl.req_deque_1h.length) :
    ∃ wu, waitUntil buf rl = some wu ∧
      rl.req_deque_1h.headD 0 + REQ_WINDOW_1H + buf ≤ wu := by
  simp only [waitUntil, if_pos h]
  by_cases h15 : REQ_LIMIT_15MIN ≤ rl.req_deque_15.length
  · rw [if_pos h15]
    exact ⟨_, rfl, le_max_right _ _⟩
  · rw [if_neg h15]
    exact ⟨_, rfl, le_refl _⟩

theorem headD_nonneg {dq : List ℤ} (hne : dq ≠ []) (h : ∀ x ∈ dq, 0 ≤ x) :
    0 ≤ dq.headD 0 := by
  cases dq with
  | nil => exact absurd rfl hne
  | cons a t => exact h a (List.mem_cons_self _ _)

theorem send_ge_15 (buf now : ℤ) (rl : RateLimiter) (hbuf : 0 < buf)
    (hnn : ∀ x ∈ (prune now rl).req_deque_15, 0 ≤ x)
    (hcap : REQ_LIMIT_15MIN ≤ (prune now rl).req_deque_15.length) :
    (prune now rl).req_deque_15.headD 0 + REQ_WINDOW_15MIN + buf ≤
      (wait_if_needed buf now rl).1 := by
  obtain ⟨wu, hwu, hge⟩ := waitUntil_ge_15 buf (prune now rl) hcap
  have hne : (prune now rl).req_deque_15 ≠ [] := by
    intro h0
    rw [h0] at hcap
    simp [REQ_LIMIT_15MIN] at hcap
  have hhead : 0 ≤ (prune now rl).req_deque_15.headD 0 := headD_nonneg hne hnn
  have hWpos : (0 : ℤ) < REQ_WINDOW_15MIN := by norm_num [REQ_WINDOW_15MIN]
  simp only [wait_if_needed]
  rw [hwu]
  show (prune now rl).req_deque_15.headD 0 + REQ_WINDOW_15MIN + buf ≤
    (if wu ≠ 0 ∧ now < wu then (wu, prune now rl) else (now, prune now rl)).1
  by_cases hc : wu ≠ 0 ∧ now < wu
  · rw [if_pos hc]
    exact hge
  · rw [if_neg hc]
    have h0 : wu ≠ 0 := by omega
    have h2 : ¬ now < wu := fun hlt => hc ⟨h0, hlt⟩
    show _ ≤ now
    omega

theorem send_ge_1h (buf now : ℤ) (rl : RateLimiter) (hbuf : 0 < buf)
    (hnn : ∀ x ∈ (prune now rl).req_deque_1h, 0 ≤ x)
    (hcap : REQ_LIMIT_1H ≤ (prune now rl).req_deque_1h.length) :
    (prune now rl).req_deque_1h.headD 0 + REQ_WINDOW_1H + buf ≤
      (wait_if_needed buf now rl).1 := by
  obtain ⟨wu, hwu, hge⟩ := waitUntil_ge_1h buf (prune now rl) hcap
  have hne : (prune now rl).req_deque_1h ≠ [] := by
    intro h0
    rw [h0] at hcap
    simp [REQ_LIMIT_1H] at hcap
  have hhead : 0 ≤ (prune now rl).req_deque_1h.headD 0 := headD_nonneg hne hnn
  have hWpos : (0 : ℤ) < REQ_WINDOW_1H := by norm_num [REQ_WINDOW_1H]
  simp only [wait_if_needed]
  rw [hwu]
  show (prune now rl).req_deque_1h.headD 0 + REQ_WINDOW_1H + buf ≤
    (if wu ≠ 0 ∧ now < wu then (wu, prune now rl) else (now, prune now rl)).1
  by_cases hc : wu ≠ 0 ∧ now < wu
  · rw [if_pos hc]
    exact hge
  · rw [if_neg hc]
    have h0 : wu ≠ 0 := by omega
    have h2 : ¬ now < wu := fun hlt => hc ⟨h0, hlt⟩
    show _ ≤ now
    omega

theorem pruneD_append_length_lt (w n : ℤ) (dq : List ℤ) (L : ℕ)
    (hlen : dq.length < L) : (pruneD w n (dq ++ [n])).length ≤ L := by
  calc (pruneD w n (dq ++ [n])).length ≤ (dq ++ [n]).length := pruneD_length_le _ _ _
  _ = dq.length + 1 := by simp
  _ ≤ L := by omega

theorem pruneD_cons_append_length (w n h0 : ℤ) (rest : List ℤ)
    (hh : h0 < n - w) :
    (pruneD w n ((h0 :: rest) ++ [n])).length ≤ rest.length + 1 := by
  show (List.dropWhile _ (h0 :: (rest ++ [n]))).length ≤ _
  rw [List.dropWhile_cons, if_pos (by simp [hh])]
  calc (List.dropWhile _ (rest ++ [n])).length ≤ (rest ++ [n]).length :=
    List.Sublist.length_le (List.dropWhile_sublist _)
  _ = rest.length + 1 := by simp

theorem sendStep_inv (buf : ℤ) (hbuf : 0 < buf) (rl : RateLimiter) (t d : ℤ)
    (ht : 0 ≤ t) (hd : 0 ≤ d) (h : Inv rl) : Inv (sendStep buf rl (t, d)) := by
  have hsnd := wait_if_needed_snd buf t rl
  obtain ⟨hl15, hl1h, hn15, hn1h⟩ := prune_inv t rl h
  have hts : t ≤ (wait_if_needed buf t rl).1 := now_le_wait_fst buf t rl
  have hn : 0 ≤ (wait_if_needed buf t rl).1 + d := by omega
  have hstep : sendStep buf rl (t, d) =
      note_request ((wait_if_needed buf t rl).1 + d) (prune t rl) := by
    unfold sendStep
    rw [hsnd]
  rw [hstep]
  refine ⟨?_, ?_, ?_, ?_⟩
  · show (pruneD REQ_WINDOW_15MIN _ ((prune t rl).req_deque_15 ++ [_])).length ≤
      REQ_LIMIT_15MIN
    by_cases hcap : REQ_LIMIT_15MIN ≤ (prune t rl).req_deque_15.length
    · have hlen : (prune t rl).req_deque_15.length = REQ_LIMIT_15MIN :=
        le_antisymm hl15 hcap
      have hge := send_ge_15 buf t rl hbuf hn15 hcap
      obtain ⟨h0, rest, hcons⟩ : ∃ h0 rest,
          (prune t rl).req_deque_15 = h0 :: rest := by
        cases hq : (prune t rl).req_deque_15 with
        | nil =>
          rw [hq] at hlen
          simp [REQ_LIMIT_15MIN] at hlen
        | cons a l => exact ⟨a, l, rfl⟩
      have hh : h0 < ((wait_if_needed buf t rl).1 + d) - REQ_WINDOW_15MIN := by
        rw [hcons] at hge
        simp only [List.headD_cons] at hge
        omega
      rw [hcons]
      calc (pruneD REQ_WINDOW_15MIN _ ((h0 :: rest) ++ [_])).length ≤ rest.length + 1 :=
        pruneD_cons_append_length _ _ _ _ hh
      _ ≤ REQ_LIMIT_15MIN := by
          rw [hcons] at hlen
          simp only [List.length_cons] at hlen
          omega
    · push_neg at hcap
      exact pruneD_append_length_lt _ _ _ _ hcap
  · show (pruneD REQ_WINDOW_1H _ ((prune t rl).req_deque_1h ++ [_])).length ≤
      REQ_LIMIT_1H
    by_cases hcap : REQ_LIMIT_1H ≤ (prune t rl).req_deque_1h.length
    · have hlen : (prune t rl).req_deque_1h.length = REQ_LIMIT_1H :=
        le_antisymm hl1h hcap
      have hge := send_ge_1h buf t rl hbuf hn1h hcap
      obtain ⟨h0, rest, hcons⟩ : ∃ h0 rest,
          (prune t rl).req_deque_1h = h0 :: rest := by
        cases hq : (prune t rl).req_deque_1h with
        | nil =>
          rw [hq] at hlen
          simp [REQ_LIMIT_1H] at hlen
        | cons a l => exact ⟨a, l, rfl⟩
      have hh : h0 < ((wait_if_needed buf t rl).1 + d) - REQ_WINDOW_1H := by
        rw [hcons] at hge
        simp only [List.headD_cons] at hge
        omega
      rw [hcons]
      calc (pruneD REQ_WINDOW_1H _ ((h0 :: rest) ++ [_])).length ≤ rest.length + 1 :=
        pruneD_cons_append_length _ _ _ _ hh
      _ ≤ REQ_LIMIT_1H := by
          rw [hcons] at hlen
          simp only [List.length_cons] at hlen
          omega
    · push_neg at hcap
      exact pruneD_append_length_lt _ _ _ _ hcap
  · intro x hx
    have hx2 := pruneD_subset _ _ _ x hx
    rcases List.mem_append.mp hx2 with hm | hm
    · exact hn15 x hm
    · rw [List.mem_singleton.mp hm]
      exact hn
  · intro x hx
    have hx2 := pruneD_subset _ _ _ x hx
    rcases List.mem_append.mp hx2 with hm | hm
    · exact hn1h x hm
    · rw [List.mem_singleton.mp hm]
      exact hn

theorem init_inv : Inv ⟨[], []⟩ :=
  ⟨by norm_num [REQ_LIMIT_15MIN], by norm_num [REQ_LIMIT_1H], by simp, by simp⟩

theorem runSteps_inv (buf : ℤ) (hbuf : 0 < buf) :
    ∀ (steps : List (ℤ × ℤ)) (rl : RateLimiter), Inv rl →
      (∀ td ∈ steps, 0 ≤ td.1 ∧ 0 ≤ td.2) → Inv (runSteps buf rl steps) := by
  intro steps
  induction steps with
  | nil =>
    intro rl h _
    exact h
  | cons td rest ih =>
    intro rl h hv
    have h1 := hv td (List.mem_cons_self _ _)
    have h2 : Inv (sendStep buf rl td) := by
      obtain ⟨t, d⟩ := td
      exact sendStep_inv buf hbuf rl t d h1.1 h1.2 h
    exact ih _ h2 (fun x hx => hv x (List.mem_cons_of_mem _ hx))

end RateLimit

/-- Claim C3: for the two configured sliding windows (100 requests per
15 minutes, 300 per hour) and any single-threaded trace of guarded
requests (each request: wait_if_needed, send, note_request on response,
with nonnegative start times and durations), at the moment any request
is actually sent each window holds at most its ceiling of timestamps
younger than its length; and when a window is at or above its ceiling
after pruning, the send time is at least
earliest_timestamp + window_length + safety_buffer for that window (the
sleep runs to the latest such deadline across the at-capacity windows). -/
theorem thm_C3 (buf t d : ℤ) (hbuf : 0 < buf) (pre post : List (ℤ × ℤ))
    (hvalid : ∀ td ∈ pre ++ (t, d) :: post, 0 ≤ td.1 ∧ 0 ≤ td.2) :
    (RateLimit.young RateLimit.REQ_WINDOW_15MIN
        (RateLimit.wait_if_needed buf t (RateLimit.runSteps buf ⟨[], []⟩ pre)).1
        (RateLimit.wait_if_needed buf t
          (RateLimit.runSteps buf ⟨[], []⟩ pre)).2.req_deque_15
      ≤ RateLimit.REQ_LIMIT_15MIN) ∧
    (RateLimit.young RateLimit.REQ_WINDOW_1H
        (RateLimit.wait_if_needed buf t (RateLimit.runSteps buf ⟨[], []⟩ pre)).1
        (RateLimit.wait_if_needed buf t
          (RateLimit.runSteps buf ⟨[], []⟩ pre)).2.req_deque_1h
      ≤ RateLimit.REQ_LIMIT_1H) ∧
    (RateLimit.REQ_LIMIT_15MIN ≤
        (RateLimit.prune t (RateLimit.runSteps buf ⟨[], []⟩ pre)).req_deque_15.length →
      (RateLimit.prune t
          (RateLimit.runSteps buf ⟨[], []⟩ pre)).req_deque_15.headD 0 +
          RateLimit.REQ_WINDOW_15MIN + buf ≤
        (RateLimit.wait_if_needed buf t (RateLimit.runSteps buf ⟨[], []⟩ pre)).1) ∧
    (RateLimit.REQ_LIMIT_1H ≤
        (RateLimit.prune t (RateLimit.runSteps buf ⟨[], []⟩ pre)).req_deque_1h.length →
      (RateLimit.prune t
          (RateLimit.runSteps buf ⟨[], []⟩ pre)).req_deque_1h.headD 0 +
          RateLimit.REQ_WINDOW_1H + buf ≤
        (RateLimit.wait_if_needed buf t (RateLimit.runSteps buf ⟨[], []⟩ pre)).1) := by
  have hInvPre : RateLimit.Inv (RateLimit.runSteps buf ⟨[], []⟩ pre) :=
    RateLimit.runSteps_inv buf hbuf pre _ RateLimit.init_inv
      (fun x hx => hvalid x (List.mem_append_left _ hx))
  have hPruneInv := RateLimit.prune_inv t _ hInvPre
  have hsnd := RateLimit.wait_if_needed_snd buf t (RateLimit.runSteps buf ⟨[], []⟩ pre)
  refine ⟨?_, ?_, ?_, ?_⟩
  · rw [hsnd]
    calc RateLimit.young _ _ _ ≤ _ := RateLimit.young_le_length _ _ _
    _ ≤ RateLimit.REQ_LIMIT_15MIN := hPruneInv.1
  · rw [hsnd]
    calc RateLimit.young _ _ _ ≤ _ := RateLimit.young_le_length _ _ _
    _ ≤ RateLimit.REQ_LIMIT_1H := hPruneInv.2.1
  · intro hcap
    exact RateLimit.send_ge_15 buf t _ hbuf hPruneInv.2.2.1 hcap
  · intro hcap
    exact RateLimit.send_ge_1h buf t _ hbuf hPruneInv.2.2.2 hcap

/-- Witness for C3: safety buffer 2, one earlier request at time 0
taking 1 second, observed request starting at time 5. -/
theorem thm_C3_witness :
    ((0 : ℤ) < 2) ∧
    (∀ td ∈ ([((0 : ℤ), (1 : ℤ))] ++ ((5 : ℤ), (1 : ℤ)) :: []), 0 ≤ td.1 ∧ 0 ≤ td.2) ∧
    ((RateLimit.young RateLimit.REQ_WINDOW_15MIN
        (RateLimit.wait_if_needed 2 5 (RateLimit.runSteps 2 ⟨[], []⟩ [(0, 1)])).1
        (RateLimit.wait_if_needed 2 5
          (RateLimit.runSteps 2 ⟨[], []⟩ [(0, 1)])).2.req_deque_15
      ≤ RateLimit.REQ_LIMIT_15MIN) ∧
    (RateLimit.young RateLimit.REQ_WINDOW_1H
        (RateLimit.wait_if_needed 2 5 (RateLimit.runSteps 2 ⟨[], []⟩ [(0, 1)])).1
        (RateLimit.wait_if_needed 2 5
          (RateLimit.runSteps 2 ⟨[], []⟩ [(0, 1)])).2.req_deque_1h
      ≤ RateLimit.REQ_LIMIT_1H) ∧
    (RateLimit.REQ_LIMIT_15MIN ≤
        (RateLimit.prune 5 (RateLimit.runSteps 2 ⟨[], []⟩ [(0, 1)])).req_deque_15.length →
      (RateLimit.prune 5
          (RateLimit.runSteps 2 ⟨[], []⟩ [(0, 1)])).req_deque_15.headD 0 +
          RateLimit.REQ_WINDOW_15MIN + 2 ≤
        (RateLimit.wait_if_needed 2 5 (RateLimit.runSteps 2 ⟨[], []⟩ [(0, 1)])).1) ∧
    (RateLimit.REQ_LIMIT_1H ≤
        (RateLimit.prune 5 (RateLimit.runSteps 2 ⟨[], []⟩ [(0, 1)])).req_deque_1h.length →
      (RateLimit.prune 5
          (RateLimit.runSteps 2 ⟨[], []⟩ [(0, 1)])).req_deque_1h.headD 0 +
          RateLimit.REQ_WINDOW_1H + 2 ≤
        (RateLimit.wait_if_needed 2 5 (RateLimit.runSteps 2 ⟨[], []⟩ [(0, 1)])).1)) := by
  refine ⟨by norm_num, by decide, ?_⟩
  exact thm_C3 2 5 1 (by norm_num) [(0, 1)] [] (by decide)
